import Mathlib

/-!
Verification of the go-evm execution engine against its specification.

The Go source is shallowly embedded: pure helpers become Lean functions,
the transactional state overlay becomes explicit state passing over an
association-list radix model, machine integers (uint64, int64) are modelled
as Nat/Int with explicit reduction modulo 2^64 where the Go code can wrap,
and Go big.Int values are modelled as Int (arbitrary precision, signed).
-/

set_option maxRecDepth 4096

namespace GoEvm

/-! ## Word arithmetic (opcodes file, toU256 / to256 / opSignExtension) -/

/-- Embedding of `toU256` from the opcodes file: when the operand is negative
or wider than 256 bits it is masked with `tt256m1 = 2^256 - 1`.  A two's
complement And with the all-ones 256-bit mask is exactly reduction modulo
`2^256`, which is how the masking step is embedded. -/
def toU256 (x : Int) : Int :=
  if x < 0 ∨ 256 < Nat.size x.natAbs then x % (2 ^ 256) else x

/-- Embedding of `to256` from the opcodes file: an operand wider than 255
bits is reinterpreted as a negative two's complement value by subtracting
`2^256`. -/
def to256 (x : Int) : Int :=
  if 255 < Nat.size x.natAbs then x - 2 ^ 256 else x

/-- Spec-side definition (from the words of the specification, for
comparison with the embedded code): sign-extending a 256-bit word `x` from
bit `b` keeps bits `0..b-1`, and copies bit `b` into every higher bit of the
256-bit result. -/
def signExtendFromBit (b : Nat) (x : Int) : Int :=
  if x.testBit b then x % 2 ^ b + (2 ^ 256 - 2 ^ b) else x % 2 ^ b

/-- Embedding of `opSignExtension` from the opcodes file.  The two stack
operands are `ext` (popped) and `x` (top of stack, overwritten in place).
When `ext > 32` (`wordSize`) the operand is untouched; otherwise the code
builds `mask = 2^(8*ext+7) - 1` and either Ors `x` with the two's complement
`Not` of the mask (sign bit set) or Ands `x` with it, then reduces with
`toU256`. -/
def opSignExtension (ext x : Int) : Int :=
  if 32 < ext then x
  else
    let bit := ext.toNat * 8 + 7
    let mask : Int := 2 ^ bit - 1
    if x.testBit bit then toU256 (Int.lor x (Int.lnot mask))
    else toU256 (Int.land x mask)

/-! helper lemmas for the bitwise arithmetic -/

theorem ldiff_two_pow_sub_one (b n : Nat) :
    Nat.ldiff (2 ^ b - 1) n = 2 ^ b - 1 - n % 2 ^ b := by
  have hp : 0 < 2 ^ b := Nat.pos_pow_of_pos b (by norm_num)
  have hr : n % 2 ^ b < 2 ^ b := Nat.mod_lt _ hp
  have key : 2 ^ b - 1 - n % 2 ^ b = 2 ^ b - (n % 2 ^ b + 1) := by omega
  rw [key]
  apply Nat.eq_of_testBit_eq
  intro i
  rw [Nat.testBit_ldiff, Nat.testBit_two_pow_sub_succ hr,
    Nat.testBit_two_pow_sub_one]
  by_cases hib : i < b
  · simp [hib, Nat.testBit_mod_two_pow]
  · simp [hib]

theorem emod_neg_small (y : Int) (h1 : -(2 ^ 256) ≤ y) (h2 : y < 0) :
    y % 2 ^ 256 = y + 2 ^ 256 := by
  have h3 : (0 : Int) ≤ y + 2 ^ 256 := by linarith
  have h4 : y + 2 ^ 256 < 2 ^ 256 := by linarith
  have h5 : (y + 2 ^ 256 * 1) % 2 ^ 256 = y % 2 ^ 256 :=
    Int.add_mul_emod_self_left y (2 ^ 256) 1
  rw [mul_one] at h5
  rw [← h5, Int.emod_eq_of_lt h3 h4]

theorem toU256_of_nonneg_small (n : Nat) (h : n < 2 ^ 256) :
    toU256 (n : Int) = (n : Int) := by
  unfold toU256
  rw [if_neg]
  push_neg
  constructor
  · exact Int.natCast_nonneg n
  · have : (n : Int).natAbs = n := Int.natAbs_ofNat n
    rw [this]
    exact Nat.size_le.2 (lt_of_lt_of_le h (by norm_num))

theorem toU256_negSucc (k : Nat) (hk : k < 2 ^ 256) :
    toU256 (Int.negSucc k) = 2 ^ 256 - (k + 1 : Nat) := by
  unfold toU256
  rw [if_pos (Or.inl (Int.negSucc_lt_zero k))]
  have he : Int.negSucc k = -((k : Int) + 1) := by
    rw [Int.negSucc_eq]
  rw [he, emod_neg_small]
  · push_cast
    ring
  · omega
  · omega

/-- Claim C9: for every signed integer x with -2^255 ≤ x < 2^255,
to256 (toU256 x) = x. -/
theorem c9_to256_toU256 (x : Int) (h1 : -(2 ^ 255) ≤ x) (h2 : x < 2 ^ 255) :
    to256 (toU256 x) = x := by
  rcases le_or_lt 0 x with hx | hx
  · have hna : (x.natAbs : Int) < 2 ^ 255 := by
      rw [Int.natAbs_of_nonneg hx]; exact h2
    have hna2 : x.natAbs < 2 ^ 255 := by exact_mod_cast hna
    have hsz : Nat.size x.natAbs ≤ 255 := Nat.size_le.2 hna2
    have htu : toU256 x = x := by
      unfold toU256
      rw [if_neg]
      push_neg
      exact ⟨hx, by omega⟩
    rw [htu]
    unfold to256
    rw [if_neg (by omega)]
  · have hpow : (2 ^ 255 : Int) ≤ 2 ^ 256 := by norm_num
    have hneg : x % 2 ^ 256 = x + 2 ^ 256 :=
      emod_neg_small x (by linarith) hx
    unfold toU256
    rw [if_pos (Or.inl hx), hneg]
    set y : Int := x + 2 ^ 256 with hy
    have hy0 : (2 ^ 255 : Int) ≤ y := by
      have : (2 ^ 256 : Int) = 2 ^ 255 * 2 := by norm_num
      omega
    have hy1 : y < 2 ^ 256 := by omega
    have hyn : (0 : Int) ≤ y := le_trans (by positivity) hy0
    have hcast : (y.natAbs : Int) = y := Int.natAbs_of_nonneg hyn
    have hsz : 255 < Nat.size y.natAbs := by
      apply Nat.lt_size.2
      have : (2 ^ 255 : Int) ≤ (y.natAbs : Int) := by rw [hcast]; exact hy0
      exact_mod_cast this
    unfold to256
    rw [if_pos hsz]
    omega

/-- Witness for C9 at the concrete input x = -5. -/
theorem c9_witness : to256 (toU256 (-5)) = -5 :=
  c9_to256_toU256 (-5) (by norm_num) (by norm_num)

theorem int_land_coe (a b : Nat) :
    Int.land (a : Int) (b : Int) = ((a &&& b : Nat) : Int) := rfl

theorem int_lnot_coe (a : Nat) : Int.lnot (a : Int) = Int.negSucc a := rfl

theorem int_lor_negSucc (a b : Nat) :
    Int.lor (a : Int) (Int.negSucc b) = Int.negSucc (Nat.ldiff b a) := rfl

theorem int_testBit_coe (a : Nat) (i : Nat) :
    Int.testBit (a : Int) i = Nat.testBit a i := rfl

/-- Claim C7: SIGNEXTEND sign-extends the word x from bit 8*ext+7 when
ext ≤ 31 and leaves x unchanged for every larger ext (for ext = 32 the code
still takes the masking path, but masking a 256-bit word below bit 263 is
the identity). -/
theorem c7_signextend (ext x : Int) (hx0 : 0 ≤ x) (hx : x < 2 ^ 256)
    (hext : 0 ≤ ext) :
    opSignExtension ext x =
      if ext ≤ 31 then signExtendFromBit (ext.toNat * 8 + 7) x else x := by
  obtain ⟨n, rfl⟩ : ∃ n : Nat, x = (n : Int) :=
    ⟨x.toNat, (Int.toNat_of_nonneg hx0).symm⟩
  have hn : n < 2 ^ 256 := by exact_mod_cast hx
  by_cases h32 : 32 < ext
  · unfold opSignExtension
    rw [if_pos h32, if_neg (by omega)]
  · unfold opSignExtension
    rw [if_neg h32]
    simp only []
    set b := ext.toNat * 8 + 7 with hb
    have hmask : ((2 ^ b - 1 : Nat) : Int) = (2 : Int) ^ b - 1 := by
      have h1 : (1 : Nat) ≤ 2 ^ b := Nat.one_le_two_pow
      push_cast [h1]
      ring
    have hpos : 0 < 2 ^ b := Nat.pos_pow_of_pos b (by norm_num)
    by_cases h31 : ext ≤ 31
    · rw [if_pos h31]
      have hble : b ≤ 255 := by
        have : ext.toNat ≤ 31 := by omega
        omega
      have hble2 : (2 : Nat) ^ b ≤ 2 ^ 255 :=
        Nat.pow_le_pow_right (by norm_num) hble
      have hr : n % 2 ^ b < 2 ^ b := Nat.mod_lt _ hpos
      have hcastmod : ((n % 2 ^ b : Nat) : Int) = (n : Int) % (2 : Int) ^ b := by
        push_cast
        ring
      by_cases htb : ((n : Int)).testBit b
      · rw [if_pos htb]
        unfold signExtendFromBit
        rw [if_pos htb]
        rw [← hmask, int_lnot_coe, int_lor_negSucc, ldiff_two_pow_sub_one]
        rw [toU256_negSucc _ (by omega)]
        rw [← hcastmod]
        have hsimp : (2 ^ b - 1 - n % 2 ^ b) + 1 = 2 ^ b - n % 2 ^ b := by omega
        rw [hsimp]
        push_cast [Nat.cast_sub hr.le]
        ring
      · rw [if_neg htb]
        unfold signExtendFromBit
        rw [if_neg htb]
        rw [← hmask, int_land_coe, Nat.and_pow_two_sub_one_eq_mod]
        rw [toU256_of_nonneg_small _ (by omega), hcastmod]
    · rw [if_neg h31]
      have hb263 : b = 263 := by rw [hb]; omega
      have htb : ((n : Int)).testBit b = false := by
        rw [int_testBit_coe, hb263]
        exact Nat.testBit_lt_two_pow (by omega)
      rw [if_neg (by rw [htb]; exact Bool.false_ne_true)]
      rw [← hmask, int_land_coe, Nat.and_pow_two_sub_one_eq_mod]
      rw [Nat.mod_eq_of_lt (by rw [hb263]; omega)]
      exact toU256_of_nonneg_small n hn

/-- Witness for C7 at the concrete input ext = 0, x = 255 (sign bit of the
low byte set, so the result is all-ones above bit 7). -/
theorem c7_witness :
    opSignExtension 0 255 =
      if (0 : Int) ≤ 31 then signExtendFromBit ((0 : Int).toNat * 8 + 7) 255
      else 255 :=
  c7_signextend 0 255 (by norm_num) (by norm_num) (by norm_num)

/-! ## Protocol revisions and error kinds -/

/-- Protocol revision, mirroring the ordered evmc.Revision enumeration. -/
abbrev Revision := Nat

def Frontier : Revision := 0
def Homestead : Revision := 1
def TangerineWhistle : Revision := 2
def SpuriousDragon : Revision := 3
def Byzantium : Revision := 4
def Constantinople : Revision := 5
def Petersburg : Revision := 6
def Istanbul : Revision := 7

/-- The error kinds of the engine.  The interpreter errors mirror the named
error values of the evm package; the driver errors mirror the error values
created inline by the Transition methods and by the precompile runner. -/
inductive Err where
  | outOfGas
  | stackUnderflow
  | stackOverflow
  | executionReverted
  | gasUintOverflow
  | writeProtection
  | invalidJump
  | opCodeNotFound
  | returnDataOutOfBounds
  | notEnoughFunds
  | incorrectNonce
  | upfrontGasFunds
  | intrinsicGasOverflow
  | intrinsicGasUnderflow
  | addressCollision
  | maxCodeSizeExceeded
  | codeStorageOutOfGas
  | precompileFailure
  | fatalPanic
  deriving DecidableEq, Repr

/-! ## Precompile dispatch (runPrecompiled, Identity) -/

/-- A precompiled contract: a gas function and a run function (the contract
interface of the precompile registry file). -/
structure PContract where
  Gas : List Nat → Revision → Nat
  Run : List Nat → Except Err (List Nat)

/-- Embedding of `runPrecompiled`: if the budget does not cover the gas
function the run fails with out of gas; otherwise the contract runs, an
error consumes all gas, and success returns the output together with the
remaining budget.  The remaining gas (a uint64 in Go, reinterpreted as
int64 on return) is modelled as a Nat. -/
def runPrecompiled (c : PContract) (input : List Nat) (gas : Nat)
    (rev : Revision) : List Nat × Nat × Option Err :=
  let gasCost := c.Gas input rev
  if gas < gasCost then ([], 0, some .outOfGas)
  else
    let gas := gas - gasCost
    match c.Run input with
    | .error e => ([], 0, some e)
    | .ok returnValue => (returnValue, gas, none)

/-- Embedding of `baseGasCalc` from the precompiled base file. -/
def baseGasCalc (input : List Nat) (base word : Nat) : Nat :=
  base + (input.length + 31) / 32 * word

/-- Embedding of the Identity precompile: gas 15 + 3 per word, run returns
the input unchanged. -/
def identityContract : PContract :=
  { Gas := fun input _ => baseGasCalc input 15 3
    Run := fun input => .ok input }

/-- Claim C8: the dispatcher fails with OutOfGas when the budget is below
the gas function, otherwise runs the contract and on success returns the
output and the budget minus the cost; IDENTITY on input 0xdeadbeef costs 18,
so budget 18 succeeds with 0 gas left and budget 17 fails with OutOfGas. -/
theorem c8_precompile_dispatch :
    (∀ (c : PContract) (input : List Nat) (gas : Nat) (rev : Revision),
      (gas < c.Gas input rev →
        runPrecompiled c input gas rev = ([], 0, some .outOfGas)) ∧
      (∀ out, c.Gas input rev ≤ gas → c.Run input = .ok out →
        runPrecompiled c input gas rev = (out, gas - c.Gas input rev, none))) ∧
    runPrecompiled identityContract [0xde, 0xad, 0xbe, 0xef] 18 Istanbul =
      ([0xde, 0xad, 0xbe, 0xef], 0, none) ∧
    runPrecompiled identityContract [0xde, 0xad, 0xbe, 0xef] 17 Istanbul =
      ([], 0, some .outOfGas) := by
  refine ⟨fun c input gas rev => ⟨fun hlt => ?_, fun out hge hrun => ?_⟩, by decide, by decide⟩
  · unfold runPrecompiled
    rw [if_pos hlt]
  · unfold runPrecompiled
    rw [if_neg (by omega), hrun]

/-- Witness for C8: the general dispatch clause applied to the Identity
contract with a short budget. -/
theorem c8_witness :
    runPrecompiled identityContract [1] 10 Istanbul = ([], 0, some .outOfGas) :=
  (c8_precompile_dispatch.1 identityContract [1] 10 Istanbul).1 (by decide)

/-! ## Interpreter frame state and memory (evm/state.go) -/

/-- Interpreter frame state (the `state` struct of evm/state.go restricted
to the fields the dispatched opcodes below read or write).  The stack is a
list with its head as the top; gas is the uint64 remaining gas. -/
structure MState where
  gas : Nat
  stack : List Nat
  memory : List Nat
  lastGasCost : Nat
  stop : Bool := false
  err : Option Err := none
  returnData : List Nat := []
  depth : Nat := 0
  static : Bool := false
  address : Nat := 0
  caller : Nat := 0
  value : Nat := 0
  rev : Nat := Istanbul

/-- Embedding of `state.exit`. -/
def exitS (s : MState) (e : Err) : MState :=
  { s with stop := true, err := some e }

/-- Embedding of `state.consumeGas`: exits with OutOfGas when the remaining
gas is short, otherwise subtracts. -/
def consumeGasS (s : MState) (g : Nat) : MState × Bool :=
  if s.gas < g then (exitS s .outOfGas, false)
  else ({ s with gas := s.gas - g }, true)

/-- Embedding of `extendByteSlice`: pad with zero bytes up to the needed
length (the Go capacity reuse always exposes zero bytes). -/
def extendByteSlice (b : List Nat) (needLen : Nat) : List Nat :=
  (b ++ List.replicate (needLen - b.length) 0).take needLen

/-- The uint64 evaluation of `3*w + w*w/512` as the code computes it: the
square wraps modulo 2^64 before the division. -/
def memCostU64 (w : Nat) : Nat :=
  ((3 * w) % 2 ^ 64 + w * w % 2 ^ 64 / 512) % 2 ^ 64

/-- The memory cost formula of the specification, in exact arithmetic. -/
def specMemCost (w : Nat) : Nat := 3 * w + w * w / 512

/-- Embedding of `state.checkMemory`: size-zero accesses are free, oversized
offsets or sizes exit with GasUintOverflow, and a growing access charges the
incremental cost and pads the memory to a word boundary.  The uint64
subtraction `newCost - lastGasCost` is modelled with the explicit
wrap-around (`lastGasCost` is a uint64, hence below 2^64). -/
def checkMemory (s : MState) (offset size : Nat) : MState × Bool :=
  if size = 0 then (s, true)
  else if 2 ^ 64 ≤ offset ∨ 2 ^ 64 ≤ size then (exitS s .gasUintOverflow, false)
  else if 0xffffffffe0 < offset ∨ 0xffffffffe0 < size then
    (exitS s .gasUintOverflow, false)
  else
    let m := s.memory.length
    let newSize := offset + size
    if m < newSize then
      let w := (newSize + 31) / 32
      let newCost := memCostU64 w
      let cost := (newCost + 2 ^ 64 - s.lastGasCost) % 2 ^ 64
      let s1 := { s with lastGasCost := newCost }
      match consumeGasS s1 cost with
      | (s2, false) => (exitS s2 .outOfGas, false)
      | (s2, true) => ({ s2 with memory := extendByteSlice s2.memory (w * 32) }, true)
    else (s, true)

/-- Embedding of `state.get2`: read a memory range after the memory
check; a length-zero read returns the empty slice untouched. -/
def get2 (s : MState) (offset length : Nat) : List Nat × MState × Bool :=
  if length = 0 then ([], s, true)
  else
    match checkMemory s offset length with
    | (s1, false) => ([], s1, false)
    | (s1, true) => ((s1.memory.drop offset).take length, s1, true)

theorem memCostU64_eq (w : Nat) (h : w < 2 ^ 32) :
    memCostU64 w = specMemCost w := by
  have h1 : w * w < 2 ^ 64 := by
    calc w * w < 2 ^ 32 * 2 ^ 32 := by
          exact Nat.mul_lt_mul_of_lt_of_le h (le_of_lt h) (by omega)
      _ = 2 ^ 64 := by norm_num
  have h2 : w * w % 2 ^ 64 = w * w := Nat.mod_eq_of_lt h1
  have h3 : 3 * w % 2 ^ 64 = 3 * w := Nat.mod_eq_of_lt (by omega)
  have h4 : w * w / 512 < 2 ^ 55 := by
    apply Nat.div_lt_of_lt_mul
    calc w * w < 2 ^ 64 := h1
      _ = 512 * 2 ^ 55 := by norm_num
  unfold memCostU64 specMemCost
  rw [h2, h3]
  exact Nat.mod_eq_of_lt (by omega)

theorem specMemCost_mono {a b : Nat} (h : a ≤ b) :
    specMemCost a ≤ specMemCost b := by
  have h1 : a * a ≤ b * b := Nat.mul_le_mul h h
  have h2 : a * a / 512 ≤ b * b / 512 := Nat.div_le_div_right h1
  unfold specMemCost
  omega

theorem extendByteSlice_length (b : List Nat) (n : Nat) (h : b.length ≤ n) :
    (extendByteSlice b n).length = n := by
  simp [extendByteSlice]
  omega

/-- Claim C6 (amended): a size-zero access charges nothing; an oversized
offset or size halts with GasUintOverflow; and a non-zero access grows
memory to the covering word boundary and charges the incremental cost
3n + n^2/512 minus the previously paid cost, provided that the new word
count n stays below 2^32 (beyond that the uint64 square wraps, see the
counterexample). -/
theorem c6_check_memory (s : MState) (offset size : Nat) :
    (size = 0 → checkMemory s offset size = (s, true)) ∧
    (size ≠ 0 → (0xffffffffe0 < offset ∨ 0xffffffffe0 < size) →
      checkMemory s offset size = (exitS s .gasUintOverflow, false)) ∧
    (size ≠ 0 → offset ≤ 0xffffffffe0 → size ≤ 0xffffffffe0 →
      s.memory.length % 32 = 0 →
      s.lastGasCost = specMemCost (s.memory.length / 32) →
      (offset + size + 31) / 32 < 2 ^ 32 →
      specMemCost ((offset + size + 31) / 32) - s.lastGasCost ≤ s.gas →
      (checkMemory s offset size).2 = true ∧
      (checkMemory s offset size).1.memory.length =
        max s.memory.length (32 * ((offset + size + 31) / 32)) ∧
      (checkMemory s offset size).1.gas =
        s.gas - (specMemCost ((checkMemory s offset size).1.memory.length / 32)
          - s.lastGasCost) ∧
      (checkMemory s offset size).1.lastGasCost =
        specMemCost ((checkMemory s offset size).1.memory.length / 32)) := by
  refine ⟨fun h0 => ?_, fun hnz hov => ?_, fun hnz ho hsz hm32 hlast hw hgas => ?_⟩
  · unfold checkMemory
    rw [if_pos h0]
  · unfold checkMemory
    rw [if_neg hnz]
    by_cases hbig : 2 ^ 64 ≤ offset ∨ 2 ^ 64 ≤ size
    · rw [if_pos hbig]
    · rw [if_neg hbig, if_pos hov]
  · have hno64 : ¬(2 ^ 64 ≤ offset ∨ 2 ^ 64 ≤ size) := by omega
    have hnoov : ¬(0xffffffffe0 < offset ∨ 0xffffffffe0 < size) := by omega
    set w := (offset + size + 31) / 32 with hwdef
    have hcover : offset + size ≤ 32 * w := by omega
    by_cases hgrow : s.memory.length < offset + size
    · -- the growing branch
      have hmono : s.lastGasCost ≤ specMemCost w := by
        rw [hlast]
        exact specMemCost_mono (by omega)
      have hcosteq : (memCostU64 w + 2 ^ 64 - s.lastGasCost) % 2 ^ 64 =
          specMemCost w - s.lastGasCost := by
        rw [memCostU64_eq w hw]
        have hlt : specMemCost w < 2 ^ 64 := by
          have := memCostU64_eq w hw
          unfold memCostU64 at this
          omega
        have he : specMemCost w + 2 ^ 64 - s.lastGasCost =
            (specMemCost w - s.lastGasCost) + 2 ^ 64 := by omega
        rw [he, Nat.add_mod_right, Nat.mod_eq_of_lt (by omega)]
      have hresult : checkMemory s offset size =
          ({ s with lastGasCost := memCostU64 w,
                    gas := s.gas - (specMemCost w - s.lastGasCost),
                    memory := extendByteSlice s.memory (w * 32) }, true) := by
        unfold checkMemory
        rw [if_neg hnz, if_neg hno64, if_neg hnoov]
        simp only [← hwdef, if_pos hgrow]
        unfold consumeGasS
        have hg : ({ s with lastGasCost := memCostU64 w } : MState).gas
            = s.gas := rfl
        rw [hcosteq, hg, if_neg (by omega)]
      rw [hresult]
      have hlen : (extendByteSlice s.memory (w * 32)).length = w * 32 :=
        extendByteSlice_length _ _ (by omega)
      have hdiv : w * 32 / 32 = w := by omega
      refine ⟨rfl, ?_, ?_, ?_⟩
      · show (extendByteSlice s.memory (w * 32)).length =
          max s.memory.length (32 * w)
        rw [hlen]
        omega
      · show s.gas - (specMemCost w - s.lastGasCost) =
          s.gas - (specMemCost
            ((extendByteSlice s.memory (w * 32)).length / 32) - s.lastGasCost)
        rw [hlen, hdiv]
      · show memCostU64 w =
          specMemCost ((extendByteSlice s.memory (w * 32)).length / 32)
        rw [hlen, hdiv, memCostU64_eq w hw]
    · -- access inside the already paid-for memory: no charge, no growth
      have hresult : checkMemory s offset size = (s, true) := by
        unfold checkMemory
        rw [if_neg hnz, if_neg hno64, if_neg hnoov]
        simp only [← hwdef, if_neg hgrow]
      rw [hresult]
      have h32w : 32 * w ≤ s.memory.length := by omega
      refine ⟨rfl, ?_, ?_, ?_⟩
      · show s.memory.length = max s.memory.length (32 * w)
        omega
      · show s.gas = s.gas - (specMemCost (s.memory.length / 32)
          - s.lastGasCost)
        omega
      · show s.lastGasCost = specMemCost (s.memory.length / 32)
        exact hlast

/-- Counterexample for C6 as stated: at offset 0 and size 2^37 (allowed by
the 0xFFFFFFFFE0 bound) the new word count is 2^32, the uint64 square
wraps to 0, and the code charges only 3*2^32 = 12884901888 gas while the
exact formula demands 36028809903865856; with a budget of exactly the
wrapped cost the access succeeds. -/
theorem c6_counterexample :
    (let s0 : MState := { gas := 12884901888, stack := [], memory := [],
                          lastGasCost := 0 }
     (checkMemory s0 0 (2 ^ 37)).2 = true ∧
     (checkMemory s0 0 (2 ^ 37)).1.gas = 0 ∧
     specMemCost ((0 + 2 ^ 37 + 31) / 32) - s0.lastGasCost =
       36028809903865856 ∧
     (36028809903865856 : Nat) ≠ 12884901888 - 0) := by
  refine ⟨rfl, rfl, by decide, by decide⟩

/-! ## Call and create opcodes (opCall / opCreate of the opcodes file) -/

/-- The subset of opcodes dispatched through opCall and opCreate. -/
inductive OpC where
  | CALL | CALLCODE | DELEGATECALL | STATICCALL | CREATE | CREATE2
  deriving DecidableEq, Repr

/-- The evmc call kinds. -/
inductive CallKind where
  | call | callCode | delegateCall | create | create2
  deriving DecidableEq, Repr

/-- Embedding of `opCodeToCallKind` (STATICCALL maps to the plain call
kind; the static flag travels separately). -/
def opCodeToCallKind : OpC → CallKind
  | .CALL => .call
  | .STATICCALL => .call
  | .CALLCODE => .callCode
  | .DELEGATECALL => .delegateCall
  | .CREATE => .create
  | .CREATE2 => .create2

/-- The argument tuple of a `Host.Call` invocation. -/
structure HostArgs where
  kind : CallKind
  recipient : Nat
  sender : Nat
  value : Nat
  input : List Nat
  gas : Int
  depth : Nat
  static : Bool
  salt : Nat
  codeAddress : Nat
  deriving DecidableEq, Repr

/-- The result tuple of a `Host.Call` invocation. -/
structure HostRes where
  ret : List Nat := []
  gasLeft : Int := 0
  createAddr : Nat := 0
  err : Option Err := none

/-- The host surface used by the call and create opcodes. -/
structure Host where
  call : HostArgs → HostRes
  accountExists : Nat → Bool
  getBalance : Nat → Nat

/-- Embedding of `state.pop`.  The Go pop returns nil on an empty stack and
its callers would then crash; the dispatch table guarantees the minimum
stack depth, which the theorems assume as an explicit stack shape. -/
def popS (s : MState) : Nat × MState :=
  (s.stack.headD 0, { s with stack := s.stack.tail })

/-- Embedding of `state.popAddr`: the popped word is left-padded or
truncated to 20 bytes, i.e. reduced modulo 2^160. -/
def popAddrS (s : MState) : Nat × MState :=
  (s.stack.headD 0 % 2 ^ 160, { s with stack := s.stack.tail })

/-- The uint64 reinterpretation of a Go int64 value. -/
def u64ofInt (i : Int) : Nat := (i % 2 ^ 64).toNat

/-- Go `copy(memory[o:o+n], src)` on an in-bounds window. -/
def copyMem (mem : List Nat) (o n : Nat) (src : List Nat) : List Nat :=
  let copied := min n src.length
  mem.take o ++ src.take copied ++ mem.drop (o + copied)

/-- Final stage of `opCall` (after the gas for the call has been consumed):
stipend, balance check, depth check, host invocation, result push, memory
write-back and gas credit.  The credits `c.gas += gas` cannot overflow a
uint64 because the credited amount was just consumed from the same counter
(the 2300 stipend is always dominated by the 9000 transfer surcharge). -/
def opCallFinish (h : Host) (op : OpC) (s0 : MState) (addr : Nat)
    (value : Option Nat) (args : List Nat) (retOffset retSize gasReq : Nat)
    (s : MState) : MState × Option HostArgs :=
  let gas := if decide ((op = .CALL ∨ op = .CALLCODE) ∧ value.getD 0 ≠ 0)
      = true then gasReq + 2300 else gasReq
  let caller := s0.address
  let toA := addr
  let codeAddress := addr
  let isStatic := op = .STATICCALL ∨ s0.static = true
  let toA := if op = .CALLCODE ∨ op = .DELEGATECALL then s0.address else toA
  let valueA := if op = .DELEGATECALL then some s0.value else value
  let caller := if op = .DELEGATECALL then s0.caller else caller
  if decide ((op = .CALL ∨ op = .CALLCODE) ∧ value.getD 0 ≠ 0) = true ∧
      h.getBalance s0.address <
        (if op = .DELEGATECALL then some s0.value else value).getD 0 then
    ({ s with gas := s.gas + gas, stack := 0 :: s.stack }, none)
  else if 1024 ≤ s0.depth then
    ({ s with stack := 0 :: s.stack, gas := s.gas + gas }, none)
  else
    let hargs : HostArgs :=
      { kind := opCodeToCallKind op, recipient := toA, sender := caller,
        value := valueA.getD 0 % 2 ^ 256, input := args,
        gas := (gas : Int), depth := s0.depth + 1,
        static := decide isStatic, salt := 0,
        codeAddress := codeAddress }
    let res := h.call hargs
    let s := { s with stack := (if res.err = none then 1 else 0) :: s.stack }
    let s := if res.ret ≠ [] then
        { s with memory := copyMem s.memory retOffset retSize res.ret }
      else s
    let s := { s with
      gas := (s.gas + u64ofInt res.gasLeft) % 2 ^ 64,
      returnData := res.ret }
    (s, some hargs)

/-- The gas cost of a call opcode before the child gas is added: base cost
(700 from Tangerine Whistle, else 40), 25000 for touching a non-existent
account (CALL only, when transferring value or before Spurious Dragon), and
9000 when transferring a non-zero value. -/
def opCallCost (h : Host) (op : OpC) (s0 : MState) (value : Option Nat)
    (addr : Nat) : Nat :=
  let gasCost0 : Nat := if TangerineWhistle ≤ s0.rev then 700 else 40
  let transfersValue : Bool :=
    decide ((op = .CALL ∨ op = .CALLCODE) ∧ value.getD 0 ≠ 0)
  let gasCost1 : Nat :=
    if op = .CALL ∧ (transfersValue = true ∨ s0.rev < SpuriousDragon) ∧
        h.accountExists addr = false
    then gasCost0 + 25000 else gasCost0
  if transfersValue = true then gasCost1 + 9000 else gasCost1

/-- Consumption stage of `opCall`: consume the base cost plus the gas
reserved for the child, then continue with `opCallFinish`. -/
def opCallConsume (h : Host) (op : OpC) (s0 : MState) (addr : Nat)
    (value : Option Nat) (args : List Nat) (retOffset retSize gasReq : Nat)
    (s : MState) : MState × Option HostArgs :=
  match consumeGasS s (opCallCost h op s0 value addr + gasReq) with
  | (s, false) => (s, none)
  | (s, true) => opCallFinish h op s0 addr value args retOffset retSize gasReq s

/-- Gas stage of `opCall`: from Tangerine Whistle the requested gas is
capped by the 63/64 rule (the uint64 wrap of `c.gas - gasCost` made
explicit); before it, a requested gas that does not fit a uint64 is an
out-of-gas exit. -/
def opCallGas (h : Host) (op : OpC) (s0 : MState) (initialGas addr : Nat)
    (value : Option Nat) (args : List Nat) (retOffset retSize : Nat)
    (s : MState) : MState × Option HostArgs :=
  if TangerineWhistle ≤ s0.rev then
    let availableGas :=
      (s.gas + 2 ^ 64 - opCallCost h op s0 value addr) % 2 ^ 64
    let availableGas := availableGas - availableGas / 64
    let gasReq := if 2 ^ 64 ≤ initialGas ∨ availableGas < initialGas then
        availableGas else initialGas
    opCallConsume h op s0 addr value args retOffset retSize gasReq s
  else if 2 ^ 64 ≤ initialGas then (exitS s .outOfGas, none)
  else opCallConsume h op s0 addr value args retOffset retSize initialGas s

/-- Memory stage of `opCall`: read the input range and check the return
range. -/
def opCallMem (h : Host) (op : OpC) (s0 : MState) (initialGas addr : Nat)
    (value : Option Nat) (inOffset inSize retOffset retSize : Nat)
    (s : MState) : MState × Option HostArgs :=
  match get2 s inOffset inSize with
  | (_, s, false) => (s, none)
  | (args, s, true) =>
    match checkMemory s retOffset retSize with
    | (s, false) => (s, none)
    | (s, true) =>
      opCallGas h op s0 initialGas addr value args retOffset retSize s

/-- Embedding of `opCall` for CALL, CALLCODE, DELEGATECALL and STATICCALL,
staged through `opCallMem`, `opCallGas` and `opCallFinish` exactly along the
phases of the Go function.  Beyond the resulting machine state it returns
the `Host.Call` argument tuple when (and only when) the code invokes the
host, so that the theorems can speak about the host never being called.
The frame-constant fields (depth, static flag, addresses, frame value,
revision) are read from the entry state s0: no interpreter step mutates
them. -/
def opCall (h : Host) (op : OpC) (s0 : MState) : MState × Option HostArgs :=
  if op = .CALL ∧ s0.static = true ∧ s0.stack.getD 2 0 ≠ 0 then
    (exitS { s0 with returnData := [] } .writeProtection, none)
  else if op = .DELEGATECALL ∧ s0.rev < Homestead then
    (exitS { s0 with returnData := [] } .opCodeNotFound, none)
  else if op = .STATICCALL ∧ s0.rev < Byzantium then
    (exitS { s0 with returnData := [] } .opCodeNotFound, none)
  else
    let s := { s0 with returnData := [] }
    let initialGas := (popS s).1
    let s := (popS s).2
    let addr := (popAddrS s).1
    let s := (popAddrS s).2
    let vp : Option Nat × MState :=
      if op = .CALL ∨ op = .CALLCODE then (some (popS s).1, (popS s).2)
      else (none, s)
    let value := vp.1
    let s := vp.2
    let inOffset := (popS s).1
    let s := (popS s).2
    let inSize := (popS s).1
    let s := (popS s).2
    let retOffset := (popS s).1
    let s := (popS s).2
    let retSize := (popS s).1
    let s := (popS s).2
    opCallMem h op s0 initialGas addr value inOffset inSize retOffset retSize s

/-- The gas reserved for a child creation frame: all remaining gas, capped
to 63/64 from Tangerine Whistle (CREATE2 always uses the cap). -/
def opCreateReserve (s0 : MState) (op : OpC) (gasAll : Nat) : Nat :=
  if TangerineWhistle ≤ s0.rev ∨ op = .CREATE2 then gasAll - gasAll / 64
  else gasAll

/-- Final stage of `opCreate`: reserve and consume the child gas, check the
depth, and invoke the host.  The reservation never exceeds the remaining
gas, so the consumption cannot fail; the failure branch is kept because the
source has it. -/
def opCreateGas (h : Host) (op : OpC) (s0 : MState) (value salt : Nat)
    (input : List Nat) (s : MState) : MState × Option HostArgs :=
  match consumeGasS s (opCreateReserve s0 op s.gas) with
  | (s1, false) => ({ s1 with stack := 0 :: s1.stack }, none)
  | (s1, true) =>
    if 1024 ≤ s0.depth then
      ({ s1 with
         stack := 0 :: s1.stack,
         gas := s1.gas + opCreateReserve s0 op s.gas },
       none)
    else
      let saltHash := if op = .CREATE2 then salt % 2 ^ 256 else 0
      let hargs : HostArgs :=
        { kind := opCodeToCallKind op, recipient := 0, sender := s0.address,
          value := value % 2 ^ 256, input := input,
          gas := (opCreateReserve s0 op s.gas : Int), depth := s0.depth + 1,
          static := false, salt := saltHash, codeAddress := 0 }
      let res := h.call hargs
      let s2 := { s1 with stack :=
        (if res.err = none then res.createAddr % 2 ^ 160 else 0) :: s1.stack }
      let s2 := { s2 with
        gas := (s2.gas + u64ofInt res.gasLeft) % 2 ^ 64,
        returnData := res.ret }
      (s2, some hargs)

/-- Middle stage of `opCreate`: balance check for the transferred value and
the CREATE2 hashing gas (the init code length reduced to uint64). -/
def opCreateBal (h : Host) (op : OpC) (s0 : MState) (value length salt : Nat)
    (input : List Nat) (s : MState) : MState × Option HostArgs :=
  if value ≠ 0 ∧ h.getBalance s0.address < value then
    ({ s with stack := 0 :: s.stack }, none)
  else
    match (if op = .CREATE2 then
        consumeGasS s (((length % 2 ^ 64 + 31) / 32) * 6)
      else (s, true)) with
    | (s, false) => ({ s with stack := 0 :: s.stack }, none)
    | (s, true) => opCreateGas h op s0 value salt input s

/-- Memory stage of `opCreate`: read the init code range. -/
def opCreateMem (h : Host) (op : OpC) (s0 : MState)
    (value offset length salt : Nat) (s : MState) : MState × Option HostArgs :=
  match get2 s offset length with
  | (_, s, false) => ({ s with stack := 0 :: s.stack }, none)
  | (input, s, true) => opCreateBal h op s0 value length salt input s

/-- Embedding of `opCreate` for CREATE and CREATE2, staged through
`opCreateMem`, `opCreateBal` and `opCreateGas` along the phases of the Go
function and instrumented like `opCall` with the host invocation it makes,
if any. -/
def opCreate (h : Host) (op : OpC) (s0 : MState) : MState × Option HostArgs :=
  if s0.static = true then (exitS s0 .writeProtection, none)
  else if op = .CREATE2 ∧ s0.rev < Constantinople then
    (exitS s0 .opCodeNotFound, none)
  else
    let s := { s0 with returnData := [] }
    let value := (popS s).1
    let s := (popS s).2
    let offset := (popS s).1
    let s := (popS s).2
    let length := (popS s).1
    let s := (popS s).2
    let sp : Nat × MState := if op = .CREATE2 then popS s else (0, s)
    let salt := sp.1
    let s := sp.2
    opCreateMem h op s0 value offset length salt s

/-- Witness for C6 at a small growing access: offset 0, size 32 over empty
memory charges 3 gas and grows memory to one word. -/
theorem c6_witness :
    (let s0 : MState := { gas := 100, stack := [], memory := [],
                          lastGasCost := 0 }
     (checkMemory s0 0 32).2 = true ∧
     (checkMemory s0 0 32).1.memory.length =
       max s0.memory.length (32 * ((0 + 32 + 31) / 32)) ∧
     (checkMemory s0 0 32).1.gas =
       s0.gas - (specMemCost ((checkMemory s0 0 32).1.memory.length / 32)
         - s0.lastGasCost) ∧
     (checkMemory s0 0 32).1.lastGasCost =
       specMemCost ((checkMemory s0 0 32).1.memory.length / 32)) :=
  (c6_check_memory { gas := 100, stack := [], memory := [], lastGasCost := 0 }
    0 32).2.2 (by decide) (by decide) (by decide) (by decide) (by decide)
    (by decide) (by decide)

theorem get2_zero (s : MState) (o : Nat) : get2 s o 0 = ([], s, true) := by
  unfold get2
  rw [if_pos rfl]

theorem checkMemory_zero (s : MState) (o : Nat) :
    checkMemory s o 0 = (s, true) := by
  unfold checkMemory
  rw [if_pos rfl]

theorem opCallFinish_depth (h : Host) (op : OpC) (s0 : MState) (addr : Nat)
    (value : Option Nat) (args : List Nat) (ro rs gq : Nat) (s : MState)
    (hd : 1024 ≤ s0.depth) :
    opCallFinish h op s0 addr value args ro rs gq s =
      ({ s with
         stack := 0 :: s.stack,
         gas := s.gas +
           (if decide ((op = .CALL ∨ op = .CALLCODE) ∧ value.getD 0 ≠ 0) = true
            then gq + 2300 else gq) },
       none) := by
  simp only [opCallFinish]
  repeat' split <;> try rfl
  all_goals omega

theorem opCallConsume_depth (h : Host) (op : OpC) (s0 : MState) (addr : Nat)
    (value : Option Nat) (args : List Nat) (ro rs gq : Nat) (s : MState)
    (hd : 1024 ≤ s0.depth)
    (hok : opCallCost h op s0 value addr + gq ≤ s.gas) :
    opCallConsume h op s0 addr value args ro rs gq s =
      ({ s with
         stack := 0 :: s.stack,
         gas := s.gas - (opCallCost h op s0 value addr + gq) +
           (if decide ((op = .CALL ∨ op = .CALLCODE) ∧ value.getD 0 ≠ 0) = true
            then gq + 2300 else gq) },
       none) := by
  unfold opCallConsume consumeGasS
  rw [if_neg (by omega)]
  exact opCallFinish_depth h op s0 addr value args ro rs gq _ hd

theorem opCallConsume_no_host (h : Host) (op : OpC) (s0 : MState)
    (addr : Nat) (value : Option Nat) (args : List Nat) (ro rs gq : Nat)
    (s : MState) (hd : 1024 ≤ s0.depth) :
    (opCallConsume h op s0 addr value args ro rs gq s).2 = none := by
  unfold opCallConsume
  repeat' split <;> try rfl
  all_goals rw [opCallFinish_depth h op s0 addr value args ro rs _ _ hd]

theorem opCallGas_no_host (h : Host) (op : OpC) (s0 : MState)
    (ig addr : Nat) (value : Option Nat) (args : List Nat) (ro rs : Nat)
    (s : MState) (hd : 1024 ≤ s0.depth) :
    (opCallGas h op s0 ig addr value args ro rs s).2 = none := by
  unfold opCallGas
  repeat' split <;> try rfl
  all_goals exact opCallConsume_no_host h op s0 addr value args ro rs _ _ hd

theorem opCallMem_no_host (h : Host) (op : OpC) (s0 : MState)
    (ig addr : Nat) (value : Option Nat) (io isz ro rs : Nat)
    (s : MState) (hd : 1024 ≤ s0.depth) :
    (opCallMem h op s0 ig addr value io isz ro rs s).2 = none := by
  unfold opCallMem
  repeat' split <;> try rfl
  all_goals exact opCallGas_no_host h op s0 ig addr value _ ro rs _ hd

theorem opCall_no_host (h : Host) (op : OpC) (s : MState)
    (hd : 1024 ≤ s.depth) : (opCall h op s).2 = none := by
  unfold opCall
  repeat' split <;> try rfl
  all_goals exact opCallMem_no_host h op s _ _ _ _ _ _ _ _ hd

theorem opCreateGas_no_host (h : Host) (op : OpC) (s0 : MState)
    (value salt : Nat) (input : List Nat) (s : MState)
    (hd : 1024 ≤ s0.depth) :
    (opCreateGas h op s0 value salt input s).2 = none := by
  unfold opCreateGas
  repeat' split <;> try rfl
  all_goals omega

theorem opCreateBal_no_host (h : Host) (op : OpC) (s0 : MState)
    (value len salt : Nat) (input : List Nat) (s : MState)
    (hd : 1024 ≤ s0.depth) :
    (opCreateBal h op s0 value len salt input s).2 = none := by
  simp only [opCreateBal]
  repeat' split <;> try rfl
  all_goals exact opCreateGas_no_host h op s0 value salt input _ hd

theorem opCreateMem_no_host (h : Host) (op : OpC) (s0 : MState)
    (value offset length salt : Nat) (s : MState) (hd : 1024 ≤ s0.depth) :
    (opCreateMem h op s0 value offset length salt s).2 = none := by
  unfold opCreateMem
  repeat' split <;> try rfl
  all_goals exact opCreateBal_no_host h op s0 value length salt _ _ hd

theorem opCreate_no_host (h : Host) (op : OpC) (s : MState)
    (hd : 1024 ≤ s.depth) : (opCreate h op s).2 = none := by
  unfold opCreate
  repeat' split <;> try rfl
  all_goals exact opCreateMem_no_host h op s _ _ _ _ _ hd

theorem opCallFinish_some (h : Host) (op : OpC) (s0 : MState) (addr : Nat)
    (value : Option Nat) (args : List Nat) (ro rs gq : Nat) (s : MState)
    (a : HostArgs)
    (hsome : (opCallFinish h op s0 addr value args ro rs gq s).2 = some a) :
    a.depth = s0.depth + 1 ∧ a.depth ≤ 1024 := by
  simp only [opCallFinish] at hsome
  repeat' split at hsome
  all_goals simp at hsome
  all_goals subst hsome
  all_goals exact ⟨rfl, by show s0.depth + 1 ≤ 1024; omega⟩

theorem opCallConsume_some (h : Host) (op : OpC) (s0 : MState) (addr : Nat)
    (value : Option Nat) (args : List Nat) (ro rs gq : Nat) (s : MState)
    (a : HostArgs)
    (hsome : (opCallConsume h op s0 addr value args ro rs gq s).2 = some a) :
    a.depth = s0.depth + 1 ∧ a.depth ≤ 1024 := by
  unfold opCallConsume at hsome
  repeat' split at hsome
  all_goals try simp at hsome
  all_goals exact opCallFinish_some h op s0 addr value args ro rs gq _ a hsome

theorem opCallGas_some (h : Host) (op : OpC) (s0 : MState) (ig addr : Nat)
    (value : Option Nat) (args : List Nat) (ro rs : Nat) (s : MState)
    (a : HostArgs)
    (hsome : (opCallGas h op s0 ig addr value args ro rs s).2 = some a) :
    a.depth = s0.depth + 1 ∧ a.depth ≤ 1024 := by
  unfold opCallGas at hsome
  repeat' split at hsome
  all_goals try simp at hsome
  all_goals exact opCallConsume_some h op s0 addr value args ro rs _ _ a hsome

theorem opCallMem_some (h : Host) (op : OpC) (s0 : MState) (ig addr : Nat)
    (value : Option Nat) (io isz ro rs : Nat) (s : MState) (a : HostArgs)
    (hsome : (opCallMem h op s0 ig addr value io isz ro rs s).2 = some a) :
    a.depth = s0.depth + 1 ∧ a.depth ≤ 1024 := by
  unfold opCallMem at hsome
  repeat' split at hsome
  all_goals try simp at hsome
  all_goals exact opCallGas_some h op s0 ig addr value _ ro rs _ a hsome

theorem opCall_some (h : Host) (op : OpC) (s : MState) (a : HostArgs)
    (hsome : (opCall h op s).2 = some a) :
    a.depth = s.depth + 1 ∧ a.depth ≤ 1024 := by
  unfold opCall at hsome
  repeat' split at hsome
  all_goals try simp at hsome
  all_goals exact opCallMem_some h op s _ _ _ _ _ _ _ _ a hsome

theorem opCreateGas_some (h : Host) (op : OpC) (s0 : MState)
    (value salt : Nat) (input : List Nat) (s : MState) (a : HostArgs)
    (hsome : (opCreateGas h op s0 value salt input s).2 = some a) :
    a.depth = s0.depth + 1 ∧ a.depth ≤ 1024 := by
  unfold opCreateGas at hsome
  repeat' split at hsome
  all_goals simp at hsome
  all_goals subst hsome
  all_goals exact ⟨rfl, by show s0.depth + 1 ≤ 1024; omega⟩

theorem opCreateBal_some (h : Host) (op : OpC) (s0 : MState)
    (value len salt : Nat) (input : List Nat) (s : MState) (a : HostArgs)
    (hsome : (opCreateBal h op s0 value len salt input s).2 = some a) :
    a.depth = s0.depth + 1 ∧ a.depth ≤ 1024 := by
  simp only [opCreateBal] at hsome
  repeat' split at hsome
  all_goals try simp at hsome
  all_goals exact opCreateGas_some h op s0 value salt input _ a hsome

theorem opCreateMem_some (h : Host) (op : OpC) (s0 : MState)
    (value offset length salt : Nat) (s : MState) (a : HostArgs)
    (hsome : (opCreateMem h op s0 value offset length salt s).2 = some a) :
    a.depth = s0.depth + 1 ∧ a.depth ≤ 1024 := by
  unfold opCreateMem at hsome
  repeat' split at hsome
  all_goals try simp at hsome
  all_goals exact opCreateBal_some h op s0 value length salt _ _ a hsome

theorem opCreate_some (h : Host) (op : OpC) (s : MState) (a : HostArgs)
    (hsome : (opCreate h op s).2 = some a) :
    a.depth = s.depth + 1 ∧ a.depth ≤ 1024 := by
  unfold opCreate at hsome
  repeat' split at hsome
  all_goals try simp at hsome
  all_goals exact opCreateMem_some h op s _ _ _ _ _ a hsome

theorem opCallGas_depth_credit (h : Host) (op : OpC) (s0 : MState)
    (ig addr : Nat) (value : Option Nat) (args : List Nat) (ro rs : Nat)
    (s : MState) (hd : 1024 ≤ s0.depth)
    (hgas : (TangerineWhistle ≤ s0.rev ∧
              opCallCost h op s0 value addr ≤ s.gas ∧ s.gas < 2 ^ 64) ∨
            (s0.rev < TangerineWhistle ∧ ig < 2 ^ 64 ∧
              opCallCost h op s0 value addr + ig ≤ s.gas)) :
    (opCallGas h op s0 ig addr value args ro rs s).1.stack = 0 :: s.stack ∧
    (opCallGas h op s0 ig addr value args ro rs s).1.gas +
        opCallCost h op s0 value addr =
      s.gas + (if decide ((op = .CALL ∨ op = .CALLCODE) ∧ value.getD 0 ≠ 0)
        = true then 2300 else 0) ∧
    (opCallGas h op s0 ig addr value args ro rs s).2 = none := by
  set C := opCallCost h op s0 value addr with hC
  rcases hgas with ⟨htw, hc, hu⟩ | ⟨htw, hig, hc⟩
  · have havail : (s.gas + 2 ^ 64 - C) % 2 ^ 64 = s.gas - C := by omega
    have hres : opCallGas h op s0 ig addr value args ro rs s =
        opCallConsume h op s0 addr value args ro rs
          (if 2 ^ 64 ≤ ig ∨ (s.gas - C) - (s.gas - C) / 64 < ig then
            (s.gas - C) - (s.gas - C) / 64 else ig) s := by
      unfold opCallGas
      rw [if_pos htw]
      simp only [← hC, havail]
    set gq := (if 2 ^ 64 ≤ ig ∨ (s.gas - C) - (s.gas - C) / 64 < ig then
      (s.gas - C) - (s.gas - C) / 64 else ig) with hgq
    have hok : C + gq ≤ s.gas := by
      rw [hgq]
      split <;> omega
    rw [hres, opCallConsume_depth h op s0 addr value args ro rs gq s hd hok]
    refine ⟨rfl, ?_, rfl⟩
    show s.gas - (C + gq) +
        (if decide ((op = .CALL ∨ op = .CALLCODE) ∧ value.getD 0 ≠ 0) = true
         then gq + 2300 else gq) + C = _
    split <;> omega
  · have hres : opCallGas h op s0 ig addr value args ro rs s =
        opCallConsume h op s0 addr value args ro rs ig s := by
      unfold opCallGas
      rw [if_neg (not_le.2 htw), if_neg (not_le.2 hig)]
    rw [hres, opCallConsume_depth h op s0 addr value args ro rs ig s hd hc]
    refine ⟨rfl, ?_, rfl⟩
    show s.gas - (C + ig) +
        (if decide ((op = .CALL ∨ op = .CALLCODE) ∧ value.getD 0 ≠ 0) = true
         then ig + 2300 else ig) + C = _
    split <;> omega

theorem opCreateReserve_le (s0 : MState) (op : OpC) (g : Nat) :
    opCreateReserve s0 op g ≤ g := by
  unfold opCreateReserve
  split <;> omega

theorem opCreateGas_depth (h : Host) (op : OpC) (s0 : MState)
    (value salt : Nat) (input : List Nat) (s : MState)
    (hd : 1024 ≤ s0.depth) :
    (opCreateGas h op s0 value salt input s).1.stack = 0 :: s.stack ∧
    (opCreateGas h op s0 value salt input s).1.gas = s.gas ∧
    (opCreateGas h op s0 value salt input s).2 = none := by
  have hR := opCreateReserve_le s0 op s.gas
  have hcons : consumeGasS s (opCreateReserve s0 op s.gas) =
      ({ s with gas := s.gas - opCreateReserve s0 op s.gas }, true) := by
    unfold consumeGasS
    rw [if_neg (by omega)]
  unfold opCreateGas
  rw [hcons]
  simp only [if_pos hd]
  refine ⟨trivial, ?_, trivial⟩
  omega

theorem opCreateBal_zero_len (h : Host) (op : OpC) (s0 : MState)
    (value salt : Nat) (input : List Nat) (s : MState)
    (hbal : ¬(value ≠ 0 ∧ h.getBalance s0.address < value)) :
    opCreateBal h op s0 value 0 salt input s =
      opCreateGas h op s0 value salt input s := by
  unfold opCreateBal
  rw [if_neg hbal]
  by_cases hcx : op = OpC.CREATE2
  · rw [if_pos hcx]
    have hzero : consumeGasS s ((0 % 2 ^ 64 + 31) / 32 * 6) =
        ({ s with gas := s.gas - (0 % 2 ^ 64 + 31) / 32 * 6 }, true) := by
      unfold consumeGasS
      rw [if_neg (by omega)]
    rw [hzero]
    rfl
  · rw [if_neg hcx]

theorem opCreateMem_zero_len (h : Host) (op : OpC) (s0 : MState)
    (value offset salt : Nat) (s : MState) :
    opCreateMem h op s0 value offset 0 salt s =
      opCreateBal h op s0 value 0 salt [] s := by
  unfold opCreateMem
  simp only [get2_zero]

theorem opCallMem_zero_sizes (h : Host) (op : OpC) (s0 : MState)
    (ig addr : Nat) (value : Option Nat) (io ro : Nat) (s : MState) :
    opCallMem h op s0 ig addr value io 0 ro 0 s =
      opCallGas h op s0 ig addr value [] ro 0 s := by
  unfold opCallMem
  simp only [get2_zero, checkMemory_zero]

theorem opCall_depth_credit_value (h : Host) (op : OpC) (s0 : MState)
    (g a v io ro : Nat) (rest : List Nat)
    (hop : op = .CALL ∨ op = .CALLCODE)
    (hstack : s0.stack = g :: a :: v :: io :: 0 :: ro :: 0 :: rest)
    (hprot : op = .CALL → s0.static = false ∨ v = 0)
    (hd : 1024 ≤ s0.depth)
    (hgas : (TangerineWhistle ≤ s0.rev ∧
              opCallCost h op s0 (some v) (a % 2 ^ 160) ≤ s0.gas ∧
              s0.gas < 2 ^ 64) ∨
            (s0.rev < TangerineWhistle ∧ g < 2 ^ 64 ∧
              opCallCost h op s0 (some v) (a % 2 ^ 160) + g ≤ s0.gas)) :
    (opCall h op s0).1.stack = 0 :: rest ∧
    (opCall h op s0).1.gas + opCallCost h op s0 (some v) (a % 2 ^ 160) =
      s0.gas + (if v ≠ 0 then 2300 else 0) ∧
    (opCall h op s0).2 = none := by
  have hc1 : ¬(op = OpC.CALL ∧ s0.static = true ∧ s0.stack.getD 2 0 ≠ 0) := by
    rintro ⟨h1, h2, h3⟩
    rcases hprot h1 with hf | hv
    · rw [hf] at h2
      exact absurd h2 (by decide)
    · rw [hstack] at h3
      simp [List.getD_cons_succ, List.getD_cons_zero, hv] at h3
  have hc2 : ¬(op = OpC.DELEGATECALL ∧ s0.rev < Homestead) := by
    rcases hop with rfl | rfl <;> simp
  have hc3 : ¬(op = OpC.STATICCALL ∧ s0.rev < Byzantium) := by
    rcases hop with rfl | rfl <;> simp
  unfold opCall
  rw [if_neg hc1, if_neg hc2, if_neg hc3]
  simp only [if_pos hop, popS, popAddrS, hstack, List.headD_cons,
    List.tail_cons, opCallMem_zero_sizes]
  have hmain := opCallGas_depth_credit h op s0 g (a % 2 ^ 160) (some v) [] ro 0
    { s0 with returnData := [], stack := rest } hd hgas
  have hcond : (if decide ((op = OpC.CALL ∨ op = OpC.CALLCODE) ∧
      ((some v : Option Nat)).getD 0 ≠ 0) = true then 2300 else 0) =
      (if v ≠ 0 then 2300 else 0) := by
    rcases hop with rfl | rfl <;> by_cases hv : v = 0 <;> simp [hv]
  refine ⟨hmain.1, ?_, hmain.2.2⟩
  rw [← hcond]
  exact hmain.2.1

theorem opCall_depth_credit_plain (h : Host) (op : OpC) (s0 : MState)
    (g a io ro : Nat) (rest : List Nat)
    (hop : op = .DELEGATECALL ∨ op = .STATICCALL)
    (hstack : s0.stack = g :: a :: io :: 0 :: ro :: 0 :: rest)
    (hrevD : op = .DELEGATECALL → Homestead ≤ s0.rev)
    (hrevS : op = .STATICCALL → Byzantium ≤ s0.rev)
    (hd : 1024 ≤ s0.depth)
    (hgas : (TangerineWhistle ≤ s0.rev ∧
              opCallCost h op s0 none (a % 2 ^ 160) ≤ s0.gas ∧
              s0.gas < 2 ^ 64) ∨
            (s0.rev < TangerineWhistle ∧ g < 2 ^ 64 ∧
              opCallCost h op s0 none (a % 2 ^ 160) + g ≤ s0.gas)) :
    (opCall h op s0).1.stack = 0 :: rest ∧
    (opCall h op s0).1.gas + opCallCost h op s0 none (a % 2 ^ 160) = s0.gas ∧
    (opCall h op s0).2 = none := by
  have hc1 : ¬(op = OpC.CALL ∧ s0.static = true ∧ s0.stack.getD 2 0 ≠ 0) := by
    rcases hop with rfl | rfl <;> simp
  have hc2 : ¬(op = OpC.DELEGATECALL ∧ s0.rev < Homestead) := by
    rintro ⟨h1, h2⟩
    exact absurd h2 (not_lt.2 (hrevD h1))
  have hc3 : ¬(op = OpC.STATICCALL ∧ s0.rev < Byzantium) := by
    rintro ⟨h1, h2⟩
    exact absurd h2 (not_lt.2 (hrevS h1))
  have hvp : ¬(op = OpC.CALL ∨ op = OpC.CALLCODE) := by
    rcases hop with rfl | rfl <;> simp
  unfold opCall
  rw [if_neg hc1, if_neg hc2, if_neg hc3]
  simp only [if_neg hvp, popS, popAddrS, hstack, List.headD_cons,
    List.tail_cons, opCallMem_zero_sizes]
  have hmain := opCallGas_depth_credit h op s0 g (a % 2 ^ 160) none [] ro 0
    { s0 with returnData := [], stack := rest } hd hgas
  have hcond : (if decide ((op = OpC.CALL ∨ op = OpC.CALLCODE) ∧
      ((none : Option Nat)).getD 0 ≠ 0) = true then 2300 else 0) =
      (0 : Nat) := by
    rcases hop with rfl | rfl <;> simp
  refine ⟨hmain.1, ?_, hmain.2.2⟩
  have := hmain.2.1
  rw [hcond] at this
  simpa using this

theorem opCreate_depth_credit (h : Host) (s0 : MState) (v o : Nat)
    (rest : List Nat)
    (hstack : s0.stack = v :: o :: 0 :: rest)
    (hst : s0.static = false)
    (hbal : ¬(v ≠ 0 ∧ h.getBalance s0.address < v))
    (hd : 1024 ≤ s0.depth) :
    (opCreate h .CREATE s0).1.stack = 0 :: rest ∧
    (opCreate h .CREATE s0).1.gas = s0.gas ∧
    (opCreate h .CREATE s0).2 = none := by
  unfold opCreate
  rw [if_neg (by simp [hst]), if_neg (by simp)]
  simp only [popS, hstack, List.headD_cons, List.tail_cons,
    if_neg (show ¬(OpC.CREATE = OpC.CREATE2) by decide)]
  rw [opCreateMem_zero_len, opCreateBal_zero_len _ _ _ _ _ _ _ hbal]
  exact opCreateGas_depth h .CREATE s0 v 0 []
    { s0 with returnData := [], stack := rest } hd

theorem opCreate2_depth_credit (h : Host) (s0 : MState) (v o saltv : Nat)
    (rest : List Nat)
    (hstack : s0.stack = v :: o :: 0 :: saltv :: rest)
    (hst : s0.static = false)
    (hrev : Constantinople ≤ s0.rev)
    (hbal : ¬(v ≠ 0 ∧ h.getBalance s0.address < v))
    (hd : 1024 ≤ s0.depth) :
    (opCreate h .CREATE2 s0).1.stack = 0 :: rest ∧
    (opCreate h .CREATE2 s0).1.gas = s0.gas ∧
    (opCreate h .CREATE2 s0).2 = none := by
  unfold opCreate
  rw [if_neg (by simp [hst]),
    if_neg (fun hcc => absurd hcc.2 (not_lt.2 hrev))]
  simp only [popS, hstack, List.headD_cons, List.tail_cons,
    if_pos (show OpC.CREATE2 = OpC.CREATE2 from rfl)]
  rw [opCreateMem_zero_len, opCreateBal_zero_len _ _ _ _ _ _ _ hbal]
  exact opCreateGas_depth h .CREATE2 s0 v saltv []
    { s0 with returnData := [], stack := rest } hd

/-- Claim C5: a CALL/CALLCODE/DELEGATECALL/STATICCALL/CREATE/CREATE2
executed at depth 1024 or more never invokes the host call handler, and
any host invocation that does happen carries depth at most 1024 (the
parent depth plus one); on the depth-limited paths the opcode pushes 0 and
credits the gas reserved for the child back to the frame, so that only the
base call cost (minus the 2300 stipend credit on value transfers) is
consumed, and a create at the depth limit keeps its gas fully. -/
theorem c5_call_depth_cap :
    (∀ (h : Host) (op : OpC) (s : MState), 1024 ≤ s.depth →
      (opCall h op s).2 = none ∧ (opCreate h op s).2 = none) ∧
    (∀ (h : Host) (op : OpC) (s : MState) (a : HostArgs),
      (opCall h op s).2 = some a ∨ (opCreate h op s).2 = some a →
      a.depth = s.depth + 1 ∧ a.depth ≤ 1024) ∧
    (∀ (h : Host) (op : OpC) (s0 : MState) (g a v io ro : Nat)
      (rest : List Nat),
      op = .CALL ∨ op = .CALLCODE →
      s0.stack = g :: a :: v :: io :: 0 :: ro :: 0 :: rest →
      (op = .CALL → s0.static = false ∨ v = 0) →
      1024 ≤ s0.depth →
      ((TangerineWhistle ≤ s0.rev ∧
          opCallCost h op s0 (some v) (a % 2 ^ 160) ≤ s0.gas ∧
          s0.gas < 2 ^ 64) ∨
        (s0.rev < TangerineWhistle ∧ g < 2 ^ 64 ∧
          opCallCost h op s0 (some v) (a % 2 ^ 160) + g ≤ s0.gas)) →
      (opCall h op s0).1.stack = 0 :: rest ∧
      (opCall h op s0).1.gas + opCallCost h op s0 (some v) (a % 2 ^ 160) =
        s0.gas + (if v ≠ 0 then 2300 else 0) ∧
      (opCall h op s0).2 = none) ∧
    (∀ (h : Host) (op : OpC) (s0 : MState) (g a io ro : Nat)
      (rest : List Nat),
      op = .DELEGATECALL ∨ op = .STATICCALL →
      s0.stack = g :: a :: io :: 0 :: ro :: 0 :: rest →
      (op = .DELEGATECALL → Homestead ≤ s0.rev) →
      (op = .STATICCALL → Byzantium ≤ s0.rev) →
      1024 ≤ s0.depth →
      ((TangerineWhistle ≤ s0.rev ∧
          opCallCost h op s0 none (a % 2 ^ 160) ≤ s0.gas ∧
          s0.gas < 2 ^ 64) ∨
        (s0.rev < TangerineWhistle ∧ g < 2 ^ 64 ∧
          opCallCost h op s0 none (a % 2 ^ 160) + g ≤ s0.gas)) →
      (opCall h op s0).1.stack = 0 :: rest ∧
      (opCall h op s0).1.gas + opCallCost h op s0 none (a % 2 ^ 160) =
        s0.gas ∧
      (opCall h op s0).2 = none) ∧
    (∀ (h : Host) (s0 : MState) (v o : Nat) (rest : List Nat),
      s0.stack = v :: o :: 0 :: rest →
      s0.static = false →
      ¬(v ≠ 0 ∧ h.getBalance s0.address < v) →
      1024 ≤ s0.depth →
      (opCreate h .CREATE s0).1.stack = 0 :: rest ∧
      (opCreate h .CREATE s0).1.gas = s0.gas ∧
      (opCreate h .CREATE s0).2 = none) ∧
    (∀ (h : Host) (s0 : MState) (v o saltv : Nat) (rest : List Nat),
      s0.stack = v :: o :: 0 :: saltv :: rest →
      s0.static = false →
      Constantinople ≤ s0.rev →
      ¬(v ≠ 0 ∧ h.getBalance s0.address < v) →
      1024 ≤ s0.depth →
      (opCreate h .CREATE2 s0).1.stack = 0 :: rest ∧
      (opCreate h .CREATE2 s0).1.gas = s0.gas ∧
      (opCreate h .CREATE2 s0).2 = none) :=
  ⟨fun h op s hd => ⟨opCall_no_host h op s hd, opCreate_no_host h op s hd⟩,
   fun h op s a hor => hor.elim (opCall_some h op s a) (opCreate_some h op s a),
   fun h op s0 g a v io ro rest hop hstack hprot hd hgas =>
     opCall_depth_credit_value h op s0 g a v io ro rest hop hstack hprot hd hgas,
   fun h op s0 g a io ro rest hop hstack hrevD hrevS hd hgas =>
     opCall_depth_credit_plain h op s0 g a io ro rest hop hstack hrevD hrevS hd hgas,
   fun h s0 v o rest hstack hst hbal hd =>
     opCreate_depth_credit h s0 v o rest hstack hst hbal hd,
   fun h s0 v o saltv rest hstack hst hrev hbal hd =>
     opCreate2_depth_credit h s0 v o saltv rest hstack hst hrev hbal hd⟩

/-- A trivial concrete host for the C5 witness. -/
def witnessHost : Host :=
  { call := fun _ => {}, accountExists := fun _ => true,
    getBalance := fun _ => 0 }

/-- A concrete frame sitting at the depth limit for the C5 witness. -/
def witnessFrame : MState :=
  { gas := 1000, stack := [50, 9, 0, 0, 0, 0, 0], memory := [],
    lastGasCost := 0, depth := 1024 }

/-- Witness for C5: a CALL at depth 1024 with 1000 gas pushes 0 and pays
exactly the 700 base cost. -/
theorem c5_witness :
    (opCall witnessHost .CALL witnessFrame).1.stack = 0 :: [] ∧
    (opCall witnessHost .CALL witnessFrame).1.gas +
      opCallCost witnessHost .CALL witnessFrame (some 0) (9 % 2 ^ 160) =
      witnessFrame.gas + (if (0 : Nat) ≠ 0 then 2300 else 0) ∧
    (opCall witnessHost .CALL witnessFrame).2 = none :=
  c5_call_depth_cap.2.2.1 witnessHost .CALL witnessFrame 50 9 0 0 0 []
    (Or.inl rfl) rfl (fun _ => Or.inl rfl) (by decide)
    (Or.inl ⟨by decide, by decide, by decide⟩)

/-! ## Transactional state overlay (txn.go)

The immutable radix tree of the Go overlay is modelled as an association
list with insert-by-shadowing (the first entry for a key is its value);
snapshots are the stored list values themselves. -/

/-- An account as stored in the trie (Account struct). -/
structure Account where
  nonce : Nat
  balance : Int
  root : Nat
  codeHash : Nat
  code : List Nat
  deriving DecidableEq, Repr

/-- Embedding of `Account.Copy`: the Code field is not copied. -/
def Account.copy (a : Account) : Account :=
  { nonce := a.nonce, balance := a.balance, codeHash := a.codeHash,
    root := a.root, code := [] }

/-- keccak256 of the empty byte string. -/
def EmptyCodeHash : Nat :=
  0xc5d2460186f7233c927e7db2dcc703c0e500b653ca82273b7bfad8045d85a470

/-- The root hash of the empty trie. -/
def EmptyRootHash : Nat :=
  0x56e81f171bcc55a6ff8345e692c0f86e5b48e01b996cadc001622fb5e363b421

/-- The storage overlay of one state object: key to value, where a stored
`none` marks a deletion (the Go code inserts nil for the zero hash). -/
abbrev StorT := List (Nat × Option Nat)

def storGet (m : StorT) (k : Nat) : Option (Option Nat) :=
  (m.find? (fun p => p.1 = k)).map (·.2)

def storInsert (m : StorT) (k : Nat) (v : Option Nat) : StorT := (k, v) :: m

/-- The overlay entry for one account (stateObject struct). -/
structure StateObject where
  account : Account
  code : List Nat
  suicide : Bool := false
  deleted : Bool := false
  dirtyCode : Bool := false
  stor : Option StorT := none
  deriving DecidableEq, Repr

/-- Embedding of `stateObject.Empty`. -/
def StateObject.Empty (o : StateObject) : Bool :=
  o.account.nonce == 0 && o.account.balance == 0 &&
    o.account.codeHash == EmptyCodeHash

/-- Embedding of `stateObject.Copy` (the account is copied without its
Code field, the storage sub-transaction is carried over). -/
def StateObject.copy (o : StateObject) : StateObject :=
  { account := o.account.copy, code := o.code, suicide := o.suicide,
    deleted := o.deleted, dirtyCode := o.dirtyCode, stor := o.stor }

/-- The keys of the overlay tree: 20-byte account addresses plus the two
reserved 32-byte keys for the log list and the refund counter. -/
inductive TKey where
  | addrK (a : Nat)
  | logK
  | refundK
  deriving DecidableEq, Repr

/-- An emitted log entry. -/
structure LogEntry where
  address : Nat
  topics : List Nat
  data : List Nat
  deriving DecidableEq, Repr

/-- The values stored in the overlay tree. -/
inductive TVal where
  | objV (o : StateObject)
  | logsV (l : List LogEntry)
  | refundV (r : Nat)
  deriving DecidableEq, Repr

abbrev Tree := List (TKey × TVal)

def treeGet (t : Tree) (k : TKey) : Option TVal :=
  (t.find? (fun p => p.1 = k)).map (·.2)

def treeInsert (t : Tree) (k : TKey) (v : TVal) : Tree := (k, v) :: t

def treeDelete (t : Tree) (k : TKey) : Tree :=
  t.filter (fun p => ¬(p.1 = k))

/-- The Snapshot backend interface (world state behind the overlay). -/
structure SnapshotB where
  getAccount : Nat → Option Account
  getStorage : Nat → Nat → Nat → Nat

/-- Embedding of the EmptyState backend. -/
def EmptyState : SnapshotB :=
  { getAccount := fun _ => none, getStorage := fun _ _ _ => 0 }

/-- The transactional overlay (Txn struct): backend, snapshot stack, live
tree and configured revision. -/
structure Txn where
  snap : SnapshotB
  snaps : List Tree
  tree : Tree
  rev : Nat

/-- Embedding of `NewTxn`. -/
def newTxn (snap : SnapshotB) (rev : Revision) : Txn :=
  { snap := snap, snaps := [], tree := [], rev := rev }

/-- Embedding of `Txn.Snapshot`: push the live tree and return its index. -/
def snapshotOp (t : Txn) : Nat × Txn :=
  (t.snaps.length, { t with snaps := t.snaps ++ [t.tree] })

/-- Embedding of `Txn.RevertToSnapshot`.  The Go code panics on an index
out of range; every call site uses an index obtained from Snapshot, so the
default branch is unreachable. -/
def revertToSnapshot (t : Txn) (id : Nat) : Txn :=
  { t with tree := t.snaps.getD id t.tree }

/-- Embedding of `Txn.getStateObject`: overlay first (a Deleted entry hides
the account), else the Snapshot backend. -/
def getStateObject (t : Txn) (addr : Nat) : Option StateObject :=
  match treeGet t.tree (.addrK addr) with
  | some (.objV o) => if o.deleted then none else some o.copy
  | some _ => none
  | none =>
    match t.snap.getAccount addr with
    | none => none
    | some acc => some { account := acc.copy, code := acc.code }

/-- The fresh object created by `upsertAccount` when the account does not
exist yet. -/
def freshStateObject : StateObject :=
  { account := { nonce := 0, balance := 0, root := EmptyRootHash,
                 codeHash := EmptyCodeHash, code := [] },
    code := [] }

/-- Embedding of `Txn.upsertAccount`. -/
def upsertAccount (t : Txn) (addr : Nat) (create : Bool)
    (f : Option StateObject → Option StateObject) : Txn :=
  let object := match getStateObject t addr with
    | some o => some o
    | none => if create then some freshStateObject else none
  match f object with
  | some o => { t with tree := treeInsert t.tree (.addrK addr) (.objV o) }
  | none => t

/-- upsertAccount with create=true and a total callback (the shape of every
call site except Suicide). -/
def upsertAccountC (t : Txn) (addr : Nat) (f : StateObject → StateObject) :
    Txn :=
  upsertAccount t addr true (fun o => some (f (o.getD freshStateObject)))

def GetBalance (t : Txn) (addr : Nat) : Int :=
  match getStateObject t addr with
  | none => 0
  | some o => o.account.balance

def AddBalance (t : Txn) (addr : Nat) (amount : Int) : Txn :=
  upsertAccountC t addr (fun o =>
    { o with account := { o.account with
        balance := o.account.balance + amount } })

/-- Embedding of `Txn.SubBalance`: a zero amount is a no-op, an amount
above the balance is errNotEnoughFunds. -/
def SubBalance (t : Txn) (addr : Nat) (amount : Int) : Except Err Txn :=
  if amount = 0 then .ok t
  else if GetBalance t addr < amount then .error .notEnoughFunds
  else .ok (upsertAccountC t addr (fun o =>
    { o with account := { o.account with
        balance := o.account.balance - amount } }))

def GetNonce (t : Txn) (addr : Nat) : Nat :=
  match getStateObject t addr with
  | none => 0
  | some o => o.account.nonce

/-- Embedding of `Txn.IncrNonce` (the nonce is a uint64). -/
def IncrNonce (t : Txn) (addr : Nat) : Txn :=
  upsertAccountC t addr (fun o =>
    { o with account := { o.account with
        nonce := (o.account.nonce + 1) % 2 ^ 64 } })

/-- Embedding of `Txn.TouchAccount` (upsert with an empty callback). -/
def TouchAccount (t : Txn) (addr : Nat) : Txn :=
  upsertAccount t addr true (fun o => o)

/-- Embedding of `Txn.CreateAccount`: a fresh object that preserves only
the previous balance. -/
def CreateAccount (t : Txn) (addr : Nat) : Txn :=
  let obj := freshStateObject
  let obj := match getStateObject t addr with
    | some prev => { obj with account := { obj.account with
        balance := prev.account.balance } }
    | none => obj
  { t with tree := treeInsert t.tree (.addrK addr) (.objV obj) }

/-- Embedding of `Txn.SetCode`: stores the code, marks it dirty, and
recomputes the code hash with keccak256 (passed in as a function, the
hash itself is an external primitive). -/
def SetCode (keccakF : List Nat → Nat) (t : Txn) (addr : Nat)
    (code : List Nat) : Txn :=
  upsertAccountC t addr (fun o =>
    { o with
      account := { o.account with codeHash := keccakF code },
      dirtyCode := true,
      code := code })

def emptyT (t : Txn) (addr : Nat) : Bool :=
  match getStateObject t addr with
  | none => true
  | some o => o.Empty

/-- Embedding of `Txn.GetCodeHash`: zero for empty accounts, else the
stored hash. -/
def GetCodeHash (t : Txn) (addr : Nat) : Nat :=
  if emptyT t addr then 0
  else match getStateObject t addr with
  | none => 0
  | some o => o.account.codeHash

/-- Embedding of `Txn.GetState`: the storage sub-transaction of the object
if it holds the key (nil meaning deleted, i.e. zero), else the Snapshot
backend under the object root. -/
def GetState (t : Txn) (addr key : Nat) : Nat :=
  match getStateObject t addr with
  | none => 0
  | some o =>
    match o.stor with
    | some m =>
      match storGet m key with
      | some (some v) => v
      | some none => 0
      | none => t.snap.getStorage addr o.account.root key
    | none => t.snap.getStorage addr o.account.root key

/-- Embedding of `Txn.GetCommittedState`: always bypass the overlay. -/
def GetCommittedState (t : Txn) (addr key : Nat) : Nat :=
  match getStateObject t addr with
  | none => 0
  | some o => t.snap.getStorage addr o.account.root key

/-- Embedding of `Txn.SetState`: a zero value is stored as a deletion
marker. -/
def SetState (t : Txn) (addr key value : Nat) : Txn :=
  upsertAccountC t addr (fun o =>
    { o with stor := some (storInsert (o.stor.getD []) key
        (if value = 0 then none else some value)) })

/-- The list of logs held at the reserved log key. -/
def logsList (t : Txn) : List LogEntry :=
  match treeGet t.tree .logK with
  | some (.logsV l) => l
  | _ => []

/-- Embedding of `Txn.EmitLog`: append to the stored log list. -/
def EmitLog (t : Txn) (addr : Nat) (topics : List Nat) (data : List Nat) :
    Txn :=
  let log : LogEntry := { address := addr, topics := topics, data := data }
  let logs := match treeGet t.tree .logK with
    | some (.logsV l) => l
    | _ => []
  { t with tree := treeInsert t.tree .logK (.logsV (logs ++ [log])) }

/-- Embedding of `Txn.Logs`: return the accumulated logs and delete the
log key (nil when the key is absent). -/
def LogsTake (t : Txn) : List LogEntry × Txn :=
  match treeGet t.tree .logK with
  | none => ([], t)
  | some (.logsV l) => (l, { t with tree := treeDelete t.tree .logK })
  | some _ => ([], { t with tree := treeDelete t.tree .logK })

def GetRefund (t : Txn) : Nat :=
  match treeGet t.tree .refundK with
  | some (.refundV r) => r
  | _ => 0

/-- Embedding of `Txn.AddRefund` (uint64 addition). -/
def AddRefund (t : Txn) (gas : Nat) : Txn :=
  { t with tree :=
      treeInsert t.tree .refundK (.refundV ((GetRefund t + gas) % 2 ^ 64)) }

/-- Embedding of `Txn.SubRefund` (uint64 subtraction, gas is a literal
below 2^64 at every call site). -/
def SubRefund (t : Txn) (gas : Nat) : Txn :=
  { t with tree :=
      treeInsert t.tree .refundK (.refundV ((GetRefund t + 2 ^ 64 - gas) % 2 ^ 64)) }

/-- The EIP-2200 storage status codes (evmc.StorageStatus). -/
inductive StorageStatus where
  | unchanged | modified | modifiedAgain | added | deleted
  deriving DecidableEq, Repr

/-- Embedding of `Txn.SetStorage`: the write plus the EIP-2200
classification and refund accounting. -/
def SetStorage (t : Txn) (addr key value : Nat) : StorageStatus × Txn :=
  let oldValue := GetState t addr key
  if oldValue = value then (.unchanged, t)
  else
    let current := oldValue
    let original := GetCommittedState t addr key
    let t := SetState t addr key value
    let isIstanbul := Istanbul ≤ t.rev
    let legacyGasMetering := ¬isIstanbul ∧
      (Petersburg ≤ t.rev ∨ ¬(Constantinople ≤ t.rev))
    if legacyGasMetering then
      if oldValue = 0 then (.added, t)
      else if value = 0 then (.deleted, AddRefund t 15000)
      else (.modified, t)
    else if original = current then
      if original = 0 then (.added, t)
      else if value = 0 then (.deleted, AddRefund t 15000)
      else (.modified, t)
    else
      let t := if original ≠ 0 then
          (if current = 0 then SubRefund t 15000
           else if value = 0 then AddRefund t 15000 else t)
        else t
      let t := if original = value then
          (if original = 0 then
            (if isIstanbul then AddRefund t 19200 else AddRefund t 19800)
          else
            (if isIstanbul then AddRefund t 4200 else AddRefund t 4800))
        else t
      (.modifiedAgain, t)

/-! ### Overlay tree lemmas -/

/-- Replace the live tree of an overlay. -/
def treeSet (t : Txn) (tr : Tree) : Txn :=
  { t with tree := tr }

theorem treeGet_insert_same (t : Tree) (k : TKey) (v : TVal) :
    treeGet (treeInsert t k v) k = some v := by
  simp [treeGet, treeInsert, List.find?]

theorem treeGet_insert_ne (t : Tree) (k k2 : TKey) (v : TVal)
    (h : k2 ≠ k) : treeGet (treeInsert t k v) k2 = treeGet t k2 := by
  simp only [treeGet, treeInsert, List.find?]
  rw [decide_eq_false (fun he => h he.symm)]

theorem treeGet_delete_same (t : Tree) (k : TKey) :
    treeGet (treeDelete t k) k = none := by
  unfold treeGet treeDelete
  induction t with
  | nil => rfl
  | cons hd tl ih =>
    by_cases h : hd.1 = k <;> simp [List.filter_cons, h, List.find?, ih]

/-- upsertAccountC always inserts the updated object. -/
theorem upsertAccountC_eq (t : Txn) (addr : Nat)
    (f : StateObject → StateObject) :
    upsertAccountC t addr f =
      treeSet t (treeInsert t.tree (.addrK addr)
        (.objV (f ((getStateObject t addr).getD freshStateObject)))) := by
  unfold upsertAccountC upsertAccount treeSet
  cases getStateObject t addr <;> rfl

/-- Objects returned by getStateObject are never Deleted. -/
theorem getStateObject_deleted (t : Txn) (addr : Nat) (o : StateObject)
    (h : getStateObject t addr = some o) : o.deleted = false := by
  unfold getStateObject at h
  repeat' split at h
  all_goals try simp at h
  all_goals try subst h
  all_goals simp_all [StateObject.copy]

theorem getStateObject_treeSet_addr (t : Txn) (a : Nat) (o : StateObject)
    (hdel : o.deleted = false) :
    getStateObject (treeSet t (treeInsert t.tree (.addrK a) (.objV o))) a =
      some o.copy := by
  unfold getStateObject treeSet
  simp [treeGet_insert_same, hdel]

theorem getStateObject_upsertC_same (t : Txn) (addr : Nat)
    (f : StateObject → StateObject)
    (hdel : ∀ o, (f o).deleted = o.deleted) :
    getStateObject (upsertAccountC t addr f) addr =
      some (f ((getStateObject t addr).getD freshStateObject)).copy := by
  rw [upsertAccountC_eq]
  refine getStateObject_treeSet_addr t addr _ ?_
  rw [hdel]
  cases hg : getStateObject t addr with
  | none => rfl
  | some o =>
    simp only [hg, Option.getD_some]
    exact getStateObject_deleted t addr o hg

@[simp]
theorem rev_upsertC (t : Txn) (addr : Nat) (f : StateObject → StateObject) :
    (upsertAccountC t addr f).rev = t.rev := by
  rw [upsertAccountC_eq]
  rfl

@[simp]
theorem rev_setState (t : Txn) (a k v : Nat) :
    (SetState t a k v).rev = t.rev := by
  unfold SetState
  rw [rev_upsertC]

@[simp]
theorem GetRefund_treeSet_ins_addr (t : Txn) (a : Nat) (v : TVal)
    (tr : Tree) :
    GetRefund (treeSet t (treeInsert tr (.addrK a) v)) =
      (match treeGet tr .refundK with
       | some (.refundV r) => r
       | _ => 0) := by
  unfold GetRefund treeSet
  simp only
  rw [treeGet_insert_ne _ _ _ _ (by simp)]

@[simp]
theorem GetRefund_upsertC (t : Txn) (addr : Nat)
    (f : StateObject → StateObject) :
    GetRefund (upsertAccountC t addr f) = GetRefund t := by
  rw [upsertAccountC_eq, GetRefund_treeSet_ins_addr]
  rfl

@[simp]
theorem GetRefund_setState (t : Txn) (a k v : Nat) :
    GetRefund (SetState t a k v) = GetRefund t := by
  unfold SetState
  rw [GetRefund_upsertC]

@[simp]
theorem GetRefund_addRefund (t : Txn) (g : Nat) :
    GetRefund (AddRefund t g) = (GetRefund t + g) % 2 ^ 64 := by
  conv => lhs; unfold GetRefund AddRefund
  rw [treeGet_insert_same]

@[simp]
theorem GetRefund_subRefund (t : Txn) (g : Nat) :
    GetRefund (SubRefund t g) = (GetRefund t + 2 ^ 64 - g) % 2 ^ 64 := by
  conv => lhs; unfold GetRefund SubRefund
  rw [treeGet_insert_same]

theorem getStateObject_treeInsertNonAddr (t : Txn) (k : TKey) (v : TVal)
    (a : Nat) (hk : TKey.addrK a ≠ k) :
    getStateObject (treeSet t (treeInsert t.tree k v)) a =
      getStateObject t a := by
  unfold getStateObject treeSet
  simp only
  rw [treeGet_insert_ne _ _ _ _ hk]

@[simp]
theorem GetState_addRefund (t : Txn) (g a k : Nat) :
    GetState (AddRefund t g) a k = GetState t a k := by
  unfold GetState
  rw [show AddRefund t g = treeSet t (treeInsert t.tree .refundK
    (.refundV ((GetRefund t + g) % 2 ^ 64))) from rfl]
  rw [getStateObject_treeInsertNonAddr _ _ _ _ (by simp)]
  rfl

@[simp]
theorem GetState_subRefund (t : Txn) (g a k : Nat) :
    GetState (SubRefund t g) a k = GetState t a k := by
  unfold GetState
  rw [show SubRefund t g = treeSet t (treeInsert t.tree .refundK
    (.refundV ((GetRefund t + 2 ^ 64 - g) % 2 ^ 64))) from rfl]
  rw [getStateObject_treeInsertNonAddr _ _ _ _ (by simp)]
  rfl

@[simp]
theorem GetState_SetState_same (t : Txn) (a k v : Nat) :
    GetState (SetState t a k v) a k = v := by
  have h := getStateObject_upsertC_same t a
      (fun o => { o with stor := some (storInsert (o.stor.getD []) k
        (if v = 0 then none else some v)) }) (fun o => rfl)
  unfold SetState GetState
  rw [h]
  by_cases hv : v = 0 <;>
    simp [StateObject.copy, storGet, storInsert, List.find?, hv]

/-! ### C2: EIP-2200 SSTORE classification -/

/-- The claim's classification table: status from (original, current, new). -/
def eip2200Status (original current new : Nat) : StorageStatus :=
  if original = current then
    (if original = 0 then .added
     else if new = 0 then .deleted
     else .modified)
  else .modifiedAgain

/-- The claim's refund arithmetic from (original, current, new) and the
starting refund counter (exact arithmetic, no uint64 wrap). -/
def eip2200Refund (isIst : Prop) [Decidable isIst]
    (original current new refund : Nat) : Nat :=
  if original = current then
    (if original ≠ 0 ∧ new = 0 then refund + 15000 else refund)
  else
    let r1 := if original ≠ 0 ∧ current = 0 then refund - 15000
      else if original ≠ 0 ∧ new = 0 then refund + 15000 else refund
    if original = new then
      r1 + (if original = 0 then (if isIst then 19200 else 19800)
            else (if isIst then 4200 else 4800))
    else r1

/-- C2: Txn.SetStorage writes the slot and returns the EIP-2200
classification with the specified refund adjustments.  When the new value
equals the currently visible value nothing is written and the result is
Unchanged; otherwise, on the non-legacy metering path (Istanbul, or
Constantinople without Petersburg), the returned status is the claim's
classification table over (original, current, new) and the refund counter
moves by exactly the specified amounts.  The two numeric bounds keep the
uint64 refund counter away from its wrap-around. -/
theorem c2_set_storage (t : Txn) (addr key value : Nat)
    (hsub : 15000 ≤ GetRefund t)
    (hwrap : GetRefund t + 34800 < 2 ^ 64) :
    (GetState t addr key = value →
      SetStorage t addr key value = (.unchanged, t)) ∧
    (GetState t addr key ≠ value →
      (Istanbul ≤ t.rev ∨ (Constantinople ≤ t.rev ∧ ¬ Petersburg ≤ t.rev)) →
      (SetStorage t addr key value).1 =
        eip2200Status (GetCommittedState t addr key)
          (GetState t addr key) value ∧
      GetState (SetStorage t addr key value).2 addr key = value ∧
      GetRefund (SetStorage t addr key value).2 =
        eip2200Refund (Istanbul ≤ t.rev) (GetCommittedState t addr key)
          (GetState t addr key) value (GetRefund t)) := by
  constructor
  · intro h
    unfold SetStorage
    rw [if_pos h]
  · intro hne hnl
    have hip : Istanbul ≤ t.rev → Petersburg ≤ t.rev :=
      fun h => le_trans (by decide) h
    have hic : Istanbul ≤ t.rev → Constantinople ≤ t.rev :=
      fun h => le_trans (by decide) h
    rcases hnl with hist | ⟨hcon, hpet⟩
    · by_cases hoc : GetCommittedState t addr key = GetState t addr key <;>
        by_cases ho0 : GetCommittedState t addr key = 0 <;>
        by_cases hc0 : GetState t addr key = 0 <;>
        by_cases hv0 : value = 0 <;>
        by_cases hov : GetCommittedState t addr key = value <;>
        simp_all [SetStorage, eip2200Status, eip2200Refund] <;>
        omega
    · have hrev5 : t.rev = 5 :=
        le_antisymm (Nat.lt_succ_iff.mp (Nat.not_le.mp hpet)) hcon
      by_cases hoc : GetCommittedState t addr key = GetState t addr key <;>
        by_cases ho0 : GetCommittedState t addr key = 0 <;>
        by_cases hc0 : GetState t addr key = 0 <;>
        by_cases hv0 : value = 0 <;>
        by_cases hov : GetCommittedState t addr key = value <;>
        simp_all [SetStorage, eip2200Status, eip2200Refund, hrev5,
          Petersburg, Istanbul, Constantinople] <;>
        omega

/-- A concrete overlay on Istanbul with a 15000 refund balance. -/
def c2TxnW : Txn :=
  { snap := EmptyState, snaps := [],
    tree := [(.refundK, .refundV 15000)], rev := Istanbul }

/-- Witness for C2 at a concrete overlay and slot. -/
theorem c2_witness :
    (15000 ≤ GetRefund c2TxnW ∧ GetRefund c2TxnW + 34800 < 2 ^ 64 ∧
      GetState c2TxnW 1 2 ≠ 3 ∧
      (Istanbul ≤ c2TxnW.rev ∨
        (Constantinople ≤ c2TxnW.rev ∧ ¬ Petersburg ≤ c2TxnW.rev))) ∧
    ((SetStorage c2TxnW 1 2 3).1 =
        eip2200Status (GetCommittedState c2TxnW 1 2) (GetState c2TxnW 1 2) 3 ∧
      GetState (SetStorage c2TxnW 1 2 3).2 1 2 = 3 ∧
      GetRefund (SetStorage c2TxnW 1 2 3).2 =
        eip2200Refund (Istanbul ≤ c2TxnW.rev) (GetCommittedState c2TxnW 1 2)
          (GetState c2TxnW 1 2) 3 (GetRefund c2TxnW)) :=
  ⟨⟨by decide, by decide, by decide, by decide⟩,
   (c2_set_storage c2TxnW 1 2 3 (by decide) (by decide)).2
     (by decide) (by decide)⟩

/-! ### C10: Txn.Logs is a destructive read -/

theorem logsList_emitLog (t : Txn) (addr : Nat) (topics data : List Nat) :
    logsList (EmitLog t addr topics data) =
      logsList t ++ [{ address := addr, topics := topics, data := data }] := by
  simp only [logsList, EmitLog, treeGet_insert_same]

theorem logsTake_fst (t : Txn) : (LogsTake t).1 = logsList t := by
  unfold LogsTake logsList
  cases h : treeGet t.tree .logK with
  | none => rfl
  | some v => cases v <;> rfl

theorem logsList_logsTake (t : Txn) : logsList (LogsTake t).2 = [] := by
  unfold LogsTake
  cases h : treeGet t.tree .logK with
  | none => simp [logsList, h]
  | some v => cases v <;> simp [logsList, treeGet_delete_same]

/-- C10: EmitLog appends to the accumulated log list; Txn.Logs returns the
whole accumulated list and deletes it from the overlay, so an immediately
repeated call returns the empty list. -/
theorem c10_logs_destructive :
    (∀ (t : Txn) (addr : Nat) (topics data : List Nat),
      logsList (EmitLog t addr topics data) =
        logsList t ++ [{ address := addr, topics := topics, data := data }]) ∧
    (∀ t : Txn, (LogsTake t).1 = logsList t) ∧
    (∀ t : Txn, logsList (LogsTake t).2 = []) ∧
    (∀ t : Txn, (LogsTake ((LogsTake t).2)).1 = []) :=
  ⟨logsList_emitLog, logsTake_fst, logsList_logsTake,
   fun t => by rw [logsTake_fst, logsList_logsTake]⟩

/-! ## Transition driver (state_transition.go) -/

/-- A transaction message. -/
structure Message where
  nonce : Nat
  gasPrice : Int
  gas : Nat
  toA : Option Nat
  value : Int
  input : List Nat
  fromA : Nat

/-- Embedding of `Message.IsContractCreation`. -/
def Message.IsContractCreation (m : Message) : Bool := m.toA = none

def MaxUint64 : Nat := 2 ^ 64 - 1

/-- Embedding of `TransactionGasCost` with its exact overflow guards. -/
def TransactionGasCost (msg : Message) (isHomestead isIstanbul : Bool) :
    Except Err Nat :=
  let cost := if msg.IsContractCreation ∧ isHomestead then 53000 else 21000
  if msg.input.length = 0 then .ok cost
  else
    let zeros := (msg.input.filter (fun b => b = 0)).length
    let nonZeros := msg.input.length - zeros
    let nonZeroCost := if isIstanbul then 16 else 68
    if (MaxUint64 - cost) / nonZeroCost < nonZeros then
      .error .intrinsicGasOverflow
    else
      let cost := cost + nonZeros * nonZeroCost
      if (MaxUint64 - cost) / 4 < zeros then .error .intrinsicGasOverflow
      else .ok (cost + zeros * 4)

/-- Embedding of `Transition.preCheck`.  It returns the error (if any), the
overlay as left behind (the upfront SubBalance is applied before the
remaining checks run), and the post-intrinsic gas.  `msg.Gas` is a uint64;
the wrapping subtraction of step 5 is written modulo 2^64. -/
def preCheck (t : Txn) (msg : Message) : Option Err × Txn × Nat :=
  if GetNonce t msg.fromA ≠ msg.nonce then (some .incorrectNonce, t, 0)
  else
    let upfrontGasCost := msg.gasPrice * (msg.gas : Int)
    match SubBalance t msg.fromA upfrontGasCost with
    | .error _ => (some .upfrontGasFunds, t, 0)
    | .ok t1 =>
      match TransactionGasCost msg (decide (Homestead ≤ t.rev))
          (decide (Istanbul ≤ t.rev)) with
      | .error e => (some e, t1, 0)
      | .ok intrinsicGasCost =>
        let gasLeft := (msg.gas + 2 ^ 64 - intrinsicGasCost) % 2 ^ 64
        if msg.gas < gasLeft then (some .intrinsicGasUnderflow, t1, 0)
        else if GetBalance t1 msg.fromA < msg.value then
          (some .notEnoughFunds, t1, 0)
        else (none, t1, gasLeft)

/-- Embedding of `Txn.CleanDeleteObjects`: every suicided (or, when
requested, empty) object is replaced by a Deleted copy, and the refund key
is removed. -/
def CleanDeleteObjects (t : Txn) (deleteEmptyObjects : Bool) : Txn :=
  let tr := t.tree.map (fun p =>
    match p.2 with
    | .objV o =>
      if o.suicide || (o.Empty && deleteEmptyObjects) then
        (p.1, .objV { o.copy with deleted := true })
      else p
    | _ => p)
  treeSet t (treeDelete tr .refundK)

/-- Embedding of `Transition.transfer` (the amount is never nil at the
call sites modelled here). -/
def transfer (t : Txn) (fromA toA : Nat) (amount : Int) : Except Err Txn :=
  match SubBalance t fromA amount with
  | .error e => .error e
  | .ok t1 => .ok (AddBalance t1 toA amount)

/-- Embedding of `Transition.Write` around an abstract transaction body
`rest` (Apply + postCheck): a preCheck failure returns the typed error with
the overlay exactly as preCheck left it; on success the body runs on the
post-preCheck overlay and CleanDeleteObjects follows. -/
def writeDriver {α : Type} (rest : Message → Nat → Txn → α × Txn)
    (msg : Message) (t : Txn) : Except Err α × Txn :=
  match preCheck t msg with
  | (some e, t1, _) => (.error e, t1)
  | (none, t1, gasLeft) =>
    let r := rest msg gasLeft t1
    let t3 := if Byzantium ≤ r.2.rev then CleanDeleteObjects r.2 true
      else CleanDeleteObjects r.2 (decide (SpuriousDragon ≤ r.2.rev))
    (.ok r.1, t3)

/-- The driver-side contract frame (Contract struct). -/
structure Contract where
  kind : CallKind
  address : Nat
  caller : Nat
  codeAddress : Nat
  depth : Nat
  value : Int
  input : List Nat
  gas : Nat
  static : Bool := false
  salt : Nat := 0

/-- The signature of `Transition.run` (EVM.Run / runPrecompiled): bytes
returned, gas left as int64, error; plus the overlay it leaves behind. -/
def RunFn : Type := Contract → Txn → Txn × List Nat × Int × Option Err

/-- The interpreter signature before EVM.Run's gas adjustment: the gas
left is the raw uint64 machine-state gas. -/
def InterpFn : Type := Contract → Txn → Txn × List Nat × Nat × Option Err

/-- Embedding of the tail of `EVM.Run`: the interpreter's remaining gas is
reported only for success or ExecutionReverted; every other error reports
0 gas. -/
def evmRunWrap (f : InterpFn) : RunFn :=
  fun c t =>
    let r := f c t
    (r.1, r.2.1,
     (if r.2.2.2 = none ∨ r.2.2.2 = some Err.executionReverted
      then (r.2.2.1 : Int) else 0), r.2.2.2)

/-- The error path shared by applyCall and applyCreate after `run`:
revert to the snapshot, keep the payload only for ExecutionReverted. -/
def applyCallRun (runF : RunFn) (snapshot : Nat) (t : Txn) (c : Contract) :
    Txn × List Nat × Int × Option Err :=
  let r := runF c t
  match r.2.2.2 with
  | some e =>
    (revertToSnapshot r.1 snapshot,
     (if e = Err.executionReverted then r.2.1 else []), r.2.2.1, some e)
  | none => r

/-- Embedding of `Transition.applyCall`. -/
def applyCall (runF : RunFn) (t : Txn) (c : Contract)
    (callType : CallKind) : Txn × List Nat × Int × Option Err :=
  let sp := snapshotOp t
  let t1 := TouchAccount sp.2 c.address
  if callType = CallKind.call then
    match transfer t1 c.caller c.address c.value with
    | .error e => (t1, [], (c.gas : Int), some e)
    | .ok t2 => applyCallRun runF sp.1 t2 c
  else applyCallRun runF sp.1 t1 c

/-- The external primitives of contract creation: the two address
derivation functions (rlp/keccak based) and keccak256 for SetCode. -/
structure CreateFns where
  createAddress : Nat → Nat → Nat
  createAddress2 : Nat → Nat → List Nat → Nat
  keccak : List Nat → Nat

/-- Embedding of `Transition.hasCodeOrNonce`. -/
def hasCodeOrNonce (t : Txn) (addr : Nat) : Bool :=
  if GetNonce t addr ≠ 0 then true
  else if GetCodeHash t addr ≠ EmptyCodeHash ∧ GetCodeHash t addr ≠ 0 then
    true
  else false

/-- Embedding of the tail of `Transition.applyCreate` once `run` has
returned: error revert, SpuriousDragon size cap, and the 200-per-byte
code deposit charge with its Homestead-dependent failure mode. -/
def applyCreateAfterRun (keccakF : List Nat → Nat) (snapshot : Nat)
    (address : Nat) (t2 : Txn) (retValue : List Nat) (gasLeft : Int)
    (err : Option Err) : Txn × List Nat × Int × Nat × Option Err :=
  match err with
  | some e =>
    (revertToSnapshot t2 snapshot,
     (if e = Err.executionReverted then retValue else []), gasLeft,
     address, some e)
  | none =>
    if SpuriousDragon ≤ t2.rev ∧ 24576 < retValue.length then
      (revertToSnapshot t2 snapshot, [], 0, address,
       some .maxCodeSizeExceeded)
    else
      let gasCost : Int := (retValue.length : Int) * 200
      if gasLeft < gasCost then
        (if Homestead ≤ t2.rev then
          (revertToSnapshot t2 snapshot, [], 0, address,
           some .codeStorageOutOfGas)
         else (t2, [], gasLeft, address, some .codeStorageOutOfGas))
      else
        (SetCode keccakF t2 address retValue, [], gasLeft - gasCost,
         address, none)

/-- Embedding of `Transition.applyCreate`. -/
def applyCreate (ext : CreateFns) (runF : RunFn) (t : Txn) (c : Contract) :
    Txn × List Nat × Int × Nat × Option Err :=
  let gasLimit := c.gas
  if c.kind ≠ CallKind.create ∧ c.kind ≠ CallKind.create2 then
    (t, [], 0, 0, some .fatalPanic)
  else
    let address := if c.kind = CallKind.create then
        ext.createAddress c.caller (GetNonce t c.caller)
      else ext.createAddress2 c.caller c.salt c.input
    let c := { c with codeAddress := address, address := address }
    let t := IncrNonce t c.caller
    if hasCodeOrNonce t address then (t, [], 0, address,
      some .addressCollision)
    else
      let sp := snapshotOp t
      let t := sp.2
      let t := if SpuriousDragon ≤ t.rev then
          IncrNonce (CreateAccount t address) address
        else t
      match transfer t c.caller c.address c.value with
      | .error e => (t, [], (gasLimit : Int), address, some e)
      | .ok t1 =>
        let r := runF c t1
        applyCreateAfterRun ext.keccak sp.1 address r.1 r.2.1 r.2.2.1
          r.2.2.2

/-! ### C3: pre-check failures and the overlay -/

theorem GetBalance_getD (t : Txn) (a : Nat) :
    ((getStateObject t a).getD freshStateObject).account.balance =
      GetBalance t a := by
  unfold GetBalance
  cases getStateObject t a <;> rfl

theorem GetBalance_upsertC (t : Txn) (a : Nat)
    (f : StateObject → StateObject)
    (hdel : ∀ o, (f o).deleted = o.deleted) :
    GetBalance (upsertAccountC t a f) a =
      (f ((getStateObject t a).getD freshStateObject)).account.balance := by
  unfold GetBalance
  rw [getStateObject_upsertC_same t a f hdel]
  rfl

/-- A successful SubBalance leaves the balance lowered by the amount. -/
theorem GetBalance_subBalance_ok (t : Txn) (a : Nat) (amount : Int)
    (t1 : Txn) (h : SubBalance t a amount = .ok t1) :
    GetBalance t1 a = GetBalance t a - amount := by
  unfold SubBalance at h
  split at h
  · simp only [Except.ok.injEq] at h
    subst h
    rw [show amount = 0 by assumption]
    omega
  · split at h
    · simp at h
    · simp only [Except.ok.injEq] at h
      subst h
      rw [GetBalance_upsertC t a (fun o =>
        { o with account := { o.account with
            balance := o.account.balance - amount } }) (fun o => rfl)]
      show ((getStateObject t a).getD freshStateObject).account.balance
        - amount = _
      rw [GetBalance_getD]

/-- C3 (amended): a nonce or upfront-funds failure returns its typed error
with the overlay exactly as it was; every pre-check failure returns its
typed error together with the overlay preCheck left behind; and for a
failure occurring after the upfront gas purchase (intrinsic-gas errors or
value-balance shortfall) that overlay retains exactly the upfront
deduction gasPrice*gas from the sender balance. -/
theorem c3_precheck_rollback :
    (∀ (α : Type) (rest : Message → Nat → Txn → α × Txn) (msg : Message)
       (t : Txn), GetNonce t msg.fromA ≠ msg.nonce →
      writeDriver rest msg t = (.error .incorrectNonce, t)) ∧
    (∀ (α : Type) (rest : Message → Nat → Txn → α × Txn) (msg : Message)
       (t : Txn), GetNonce t msg.fromA = msg.nonce →
      msg.gasPrice * (msg.gas : Int) ≠ 0 →
      GetBalance t msg.fromA < msg.gasPrice * (msg.gas : Int) →
      writeDriver rest msg t = (.error .upfrontGasFunds, t)) ∧
    (∀ (α : Type) (rest : Message → Nat → Txn → α × Txn) (msg : Message)
       (t t1 : Txn) (e : Err) (g : Nat), preCheck t msg = (some e, t1, g) →
      writeDriver rest msg t = (.error e, t1)) ∧
    (∀ (msg : Message) (t t1 : Txn) (e : Err) (g : Nat),
      GetNonce t msg.fromA = msg.nonce →
      msg.gasPrice * (msg.gas : Int) ≠ 0 →
      ¬ GetBalance t msg.fromA < msg.gasPrice * (msg.gas : Int) →
      preCheck t msg = (some e, t1, g) →
      GetBalance t1 msg.fromA =
        GetBalance t msg.fromA - msg.gasPrice * (msg.gas : Int)) := by
  refine ⟨?_, ?_, ?_, ?_⟩
  · intro α rest msg t h
    unfold writeDriver preCheck
    rw [if_pos h]
  · intro α rest msg t h1 h2 h3
    have hs : SubBalance t msg.fromA (msg.gasPrice * (msg.gas : Int)) =
        .error .notEnoughFunds := by
      unfold SubBalance
      rw [if_neg h2, if_pos h3]
    simp only [writeDriver, preCheck]
    rw [if_neg (fun hc => hc h1), hs]
  · intro α rest msg t t1 e g hpc
    unfold writeDriver
    rw [hpc]
  · intro msg t t1 e g h1 h2 h3 hpc
    have hs : SubBalance t msg.fromA (msg.gasPrice * (msg.gas : Int)) =
        .ok (upsertAccountC t msg.fromA (fun o =>
          { o with account := { o.account with balance :=
              o.account.balance - msg.gasPrice * (msg.gas : Int) } })) := by
      unfold SubBalance
      rw [if_neg h2, if_neg h3]
    have hb := GetBalance_subBalance_ok t msg.fromA
      (msg.gasPrice * (msg.gas : Int)) _ hs
    simp only [preCheck] at hpc
    rw [if_neg (fun hc => hc h1), hs] at hpc
    repeat' split at hpc
    all_goals simp_all

/-- A backend holding one externally-owned account at address 1. -/
def c3Snap : SnapshotB :=
  { getAccount := fun a => if a = 1 then
      some { nonce := 0, balance := 1000000, root := EmptyRootHash,
             codeHash := EmptyCodeHash, code := [] }
    else none,
    getStorage := fun _ _ _ => 0 }

def c3Txn : Txn :=
  { snap := c3Snap, snaps := [], tree := [], rev := Istanbul }

/-- Gas limit 1000 is below the 21000 intrinsic cost, but the upfront
purchase 1000 * 1 succeeds first. -/
def c3Msg : Message :=
  { nonce := 0, gasPrice := 1, gas := 1000, toA := some 2, value := 0,
    input := [], fromA := 1 }

def c3Rest : Message → Nat → Txn → Unit × Txn := fun _ _ t => ((), t)

deriving instance DecidableEq for Except

/-- C3 counterexample: the transaction fails its pre-check (gas limit
below intrinsic gas), yet the sender balance in the returned overlay has
dropped by the upfront gas cost, so the overlay is not left unchanged. -/
theorem c3_counterexample :
    (writeDriver c3Rest c3Msg c3Txn).1 = .error .intrinsicGasUnderflow ∧
    GetBalance (writeDriver c3Rest c3Msg c3Txn).2 1 = 999000 ∧
    GetBalance c3Txn 1 = 1000000 := by
  decide

/-- Witness for C3 (amended) at a concrete nonce-mismatch input. -/
theorem c3_witness :
    GetNonce c3Txn { c3Msg with nonce := 5 }.fromA ≠
      { c3Msg with nonce := 5 }.nonce ∧
    writeDriver c3Rest { c3Msg with nonce := 5 } c3Txn =
      (.error .incorrectNonce, c3Txn) :=
  ⟨by decide,
   c3_precheck_rollback.1 Unit c3Rest { c3Msg with nonce := 5 } c3Txn
     (by decide)⟩

/-! ### C1: frame errors, snapshot restore, payload and gas rules -/

theorem getD_append_cons {α : Type} (l : List α) (x : α) (r : List α)
    (d : α) : (l ++ x :: r).getD l.length d = x := by
  induction l with
  | nil => rfl
  | cons a as ih => simpa using ih

@[simp]
theorem snaps_upsertC (t : Txn) (a : Nat) (f : StateObject → StateObject) :
    (upsertAccountC t a f).snaps = t.snaps := by
  rw [upsertAccountC_eq]
  rfl

@[simp]
theorem snaps_touchAccount (t : Txn) (a : Nat) :
    (TouchAccount t a).snaps = t.snaps := by
  unfold TouchAccount upsertAccount
  cases getStateObject t a <;> rfl

theorem SubBalance_ok_snaps (t t1 : Txn) (a : Nat) (v : Int)
    (h : SubBalance t a v = .ok t1) : t1.snaps = t.snaps := by
  unfold SubBalance at h
  split at h
  · injection h with h
    subst h
    rfl
  · split at h
    · exact absurd h (by simp)
    · injection h with h
      subst h
      exact snaps_upsertC t a _

theorem transfer_ok_snaps (t t1 : Txn) (a b : Nat) (v : Int)
    (h : transfer t a b v = .ok t1) : t1.snaps = t.snaps := by
  unfold transfer at h
  cases hsb : SubBalance t a v with
  | error e2 =>
    rw [hsb] at h
    simp at h
  | ok tm =>
    rw [hsb] at h
    simp only [Except.ok.injEq] at h
    subst h
    have h2 : (AddBalance tm b v).snaps = tm.snaps := snaps_upsertC tm b _
    rw [h2]
    exact SubBalance_ok_snaps t tm a v hsb

/-- The error slot of applyCallRun is exactly the error of run. -/
theorem applyCallRun_err (runF : RunFn) (s : Nat) (t : Txn) (c : Contract) :
    (applyCallRun runF s t c).2.2.2 = (runF c t).2.2.2 := by
  simp only [applyCallRun]
  cases h : (runF c t).2.2.2 <;> simp [h]

/-- Stage lemma: when run (through EVM.Run's gas adjustment) ends with an
error, applyCallRun restores the tree saved by the snapshot, keeps the
payload only for ExecutionReverted, and the reported gas is the machine
gas for ExecutionReverted and 0 otherwise. -/
theorem callRunStage (f : InterpFn) (t0 t : Txn) (c : Contract) (e : Err)
    (r : List Tree)
    (hts : t.snaps = t0.snaps ++ t0.tree :: r)
    (hq : ∀ (cc : Contract) (tt : Txn),
      ∃ q, ((f cc tt).1).snaps = tt.snaps ++ q)
    (herr : (f c t).2.2.2 = some e) :
    (applyCallRun (evmRunWrap f) t0.snaps.length t c).1.tree = t0.tree ∧
    (applyCallRun (evmRunWrap f) t0.snaps.length t c).2.1 =
      (if e = Err.executionReverted then (f c t).2.1 else []) ∧
    (applyCallRun (evmRunWrap f) t0.snaps.length t c).2.2.1 =
      (if e = Err.executionReverted then ((f c t).2.2.1 : Int) else 0) ∧
    (applyCallRun (evmRunWrap f) t0.snaps.length t c).2.2.2 = some e := by
  obtain ⟨q, hq'⟩ := hq c t
  have hsn : ((f c t).1).snaps = t0.snaps ++ t0.tree :: (r ++ q) := by
    rw [hq', hts]
    simp
  have herr2 : ((evmRunWrap f) c t).2.2.2 = some e := herr
  simp only [applyCallRun]
  rw [herr2]
  refine ⟨?_, ?_, ?_, rfl⟩
  · show (revertToSnapshot ((evmRunWrap f) c t).1 t0.snaps.length).tree
      = t0.tree
    unfold revertToSnapshot
    show ((f c t).1).snaps.getD t0.snaps.length ((f c t).1).tree = t0.tree
    rw [hsn, getD_append_cons]
  · show (if e = Err.executionReverted then ((evmRunWrap f) c t).2.1
      else []) = _
    rfl
  · show ((evmRunWrap f) c t).2.2.1 = _
    show (if (f c t).2.2.2 = none ∨
        (f c t).2.2.2 = some Err.executionReverted
      then ((f c t).2.2.1 : Int) else 0) = _
    rw [herr]
    by_cases he : e = Err.executionReverted <;> simp [he]

/-- Full-path lemma for applyCall: given a balanced interpreter and a
non-failing transfer, any error outcome restores the caller tree and, if
the error is not ExecutionReverted, returns nil data and 0 gas. -/
theorem applyCallRestore (f : InterpFn) (t : Txn) (c : Contract)
    (ct : CallKind) (e : Err)
    (hq : ∀ (cc : Contract) (tt : Txn),
      ∃ q, ((f cc tt).1).snaps = tt.snaps ++ q)
    (hok : ct ≠ CallKind.call ∨
      ∃ t2, transfer (TouchAccount (snapshotOp t).2 c.address)
        c.caller c.address c.value = Except.ok t2)
    (herr : (applyCall (evmRunWrap f) t c ct).2.2.2 = some e) :
    (applyCall (evmRunWrap f) t c ct).1.tree = t.tree ∧
    (e ≠ Err.executionReverted →
      (applyCall (evmRunWrap f) t c ct).2.1 = [] ∧
      (applyCall (evmRunWrap f) t c ct).2.2.1 = 0) := by
  have htch : (TouchAccount (snapshotOp t).2 c.address).snaps =
      t.snaps ++ t.tree :: [] := by
    rw [snaps_touchAccount]
    rfl
  by_cases hct : ct = CallKind.call
  · rcases hok with hok | ⟨t2, htr⟩
    · exact absurd hct hok
    · have hred : applyCall (evmRunWrap f) t c ct =
          applyCallRun (evmRunWrap f) t.snaps.length t2 c := by
        unfold applyCall
        rw [if_pos hct, htr]
        rfl
      rw [hred] at herr ⊢
      have he2 : (f c t2).2.2.2 = some e := by
        rw [applyCallRun_err] at herr
        exact herr
      have hts2 : t2.snaps = t.snaps ++ t.tree :: [] := by
        rw [transfer_ok_snaps _ _ _ _ _ htr, htch]
      have H := callRunStage f t t2 c e [] hts2 hq he2
      refine ⟨H.1, fun hne => ?_⟩
      rw [H.2.1, H.2.2.1]
      simp [hne]
  · have hred : applyCall (evmRunWrap f) t c ct =
        applyCallRun (evmRunWrap f) t.snaps.length
          (TouchAccount (snapshotOp t).2 c.address) c := by
      unfold applyCall
      rw [if_neg hct]
      rfl
    rw [hred] at herr ⊢
    have he2 : (f c (TouchAccount (snapshotOp t).2 c.address)).2.2.2 =
        some e := by
      rw [applyCallRun_err] at herr
      exact herr
    have H := callRunStage f t
      (TouchAccount (snapshotOp t).2 c.address) c e [] htch hq he2
    refine ⟨H.1, fun hne => ?_⟩
    rw [H.2.1, H.2.2.1]
    simp [hne]

/-- Stage lemma for applyCreate: an error from run restores the tree
saved by the snapshot and obeys the same payload and gas rules. -/
theorem createRunStage (f : InterpFn) (kf : List Nat → Nat) (t0 t : Txn)
    (c : Contract) (addr : Nat) (e : Err) (r : List Tree)
    (hts : t.snaps = t0.snaps ++ t0.tree :: r)
    (hq : ∀ (cc : Contract) (tt : Txn),
      ∃ q, ((f cc tt).1).snaps = tt.snaps ++ q)
    (herr : (f c t).2.2.2 = some e) :
    (applyCreateAfterRun kf t0.snaps.length addr ((evmRunWrap f) c t).1
      ((evmRunWrap f) c t).2.1 ((evmRunWrap f) c t).2.2.1
      ((evmRunWrap f) c t).2.2.2).1.tree = t0.tree ∧
    (applyCreateAfterRun kf t0.snaps.length addr ((evmRunWrap f) c t).1
      ((evmRunWrap f) c t).2.1 ((evmRunWrap f) c t).2.2.1
      ((evmRunWrap f) c t).2.2.2).2.1 =
      (if e = Err.executionReverted then (f c t).2.1 else []) ∧
    (applyCreateAfterRun kf t0.snaps.length addr ((evmRunWrap f) c t).1
      ((evmRunWrap f) c t).2.1 ((evmRunWrap f) c t).2.2.1
      ((evmRunWrap f) c t).2.2.2).2.2.1 =
      (if e = Err.executionReverted then ((f c t).2.2.1 : Int) else 0) ∧
    (applyCreateAfterRun kf t0.snaps.length addr ((evmRunWrap f) c t).1
      ((evmRunWrap f) c t).2.1 ((evmRunWrap f) c t).2.2.1
      ((evmRunWrap f) c t).2.2.2).2.2.2.2 = some e := by
  obtain ⟨q, hq'⟩ := hq c t
  have hsn : ((f c t).1).snaps = t0.snaps ++ t0.tree :: (r ++ q) := by
    rw [hq', hts]
    simp
  have herr2 : ((evmRunWrap f) c t).2.2.2 = some e := herr
  simp only [applyCreateAfterRun]
  rw [herr2]
  refine ⟨?_, ?_, ?_, rfl⟩
  · show (revertToSnapshot ((evmRunWrap f) c t).1 t0.snaps.length).tree
      = t0.tree
    unfold revertToSnapshot
    show ((f c t).1).snaps.getD t0.snaps.length ((f c t).1).tree = t0.tree
    rw [hsn, getD_append_cons]
  · rfl
  · show ((evmRunWrap f) c t).2.2.1 = _
    show (if (f c t).2.2.2 = none ∨
        (f c t).2.2.2 = some Err.executionReverted
      then ((f c t).2.2.1 : Int) else 0) = _
    rw [herr]
    by_cases he : e = Err.executionReverted <;> simp [he]

/-- C1 (amended): for frames run through EVM.Run, (i) any error outcome of
applyCall whose transfer step did not itself fail restores the caller's
overlay tree, and a non-ExecutionReverted error returns nil data and 0
gas; (ii) on the shared post-run error path the payload is preserved
exactly when the error is ExecutionReverted and the reported gas is the
interpreter's remaining gas for ExecutionReverted and 0 otherwise; (iii)
the same holds on applyCreate's post-run error path (whose snapshot is
taken after the caller-nonce increment).  A transfer failure inside
applyCall is an exception to the claim: it returns the frame's full gas
without reverting. -/
theorem c1_frame_error_semantics :
    (∀ (f : InterpFn) (t : Txn) (c : Contract) (ct : CallKind) (e : Err),
      (∀ (cc : Contract) (tt : Txn),
        ∃ q, ((f cc tt).1).snaps = tt.snaps ++ q) →
      (ct ≠ CallKind.call ∨
        ∃ t2, transfer (TouchAccount (snapshotOp t).2 c.address)
          c.caller c.address c.value = Except.ok t2) →
      (applyCall (evmRunWrap f) t c ct).2.2.2 = some e →
      (applyCall (evmRunWrap f) t c ct).1.tree = t.tree ∧
      (e ≠ Err.executionReverted →
        (applyCall (evmRunWrap f) t c ct).2.1 = [] ∧
        (applyCall (evmRunWrap f) t c ct).2.2.1 = 0)) ∧
    (∀ (f : InterpFn) (t0 t : Txn) (c : Contract) (e : Err)
       (r : List Tree),
      t.snaps = t0.snaps ++ t0.tree :: r →
      (∀ (cc : Contract) (tt : Txn),
        ∃ q, ((f cc tt).1).snaps = tt.snaps ++ q) →
      (f c t).2.2.2 = some e →
      (applyCallRun (evmRunWrap f) t0.snaps.length t c).1.tree = t0.tree ∧
      (applyCallRun (evmRunWrap f) t0.snaps.length t c).2.1 =
        (if e = Err.executionReverted then (f c t).2.1 else []) ∧
      (applyCallRun (evmRunWrap f) t0.snaps.length t c).2.2.1 =
        (if e = Err.executionReverted then ((f c t).2.2.1 : Int) else 0) ∧
      (applyCallRun (evmRunWrap f) t0.snaps.length t c).2.2.2 = some e) ∧
    (∀ (f : InterpFn) (kf : List Nat → Nat) (t0 t : Txn) (c : Contract)
       (addr : Nat) (e : Err) (r : List Tree),
      t.snaps = t0.snaps ++ t0.tree :: r →
      (∀ (cc : Contract) (tt : Txn),
        ∃ q, ((f cc tt).1).snaps = tt.snaps ++ q) →
      (f c t).2.2.2 = some e →
      (applyCreateAfterRun kf t0.snaps.length addr ((evmRunWrap f) c t).1
        ((evmRunWrap f) c t).2.1 ((evmRunWrap f) c t).2.2.1
        ((evmRunWrap f) c t).2.2.2).1.tree = t0.tree ∧
      (applyCreateAfterRun kf t0.snaps.length addr ((evmRunWrap f) c t).1
        ((evmRunWrap f) c t).2.1 ((evmRunWrap f) c t).2.2.1
        ((evmRunWrap f) c t).2.2.2).2.1 =
        (if e = Err.executionReverted then (f c t).2.1 else []) ∧
      (applyCreateAfterRun kf t0.snaps.length addr ((evmRunWrap f) c t).1
        ((evmRunWrap f) c t).2.1 ((evmRunWrap f) c t).2.2.1
        ((evmRunWrap f) c t).2.2.2).2.2.1 =
        (if e = Err.executionReverted then ((f c t).2.2.1 : Int) else 0) ∧
      (applyCreateAfterRun kf t0.snaps.length addr ((evmRunWrap f) c t).1
        ((evmRunWrap f) c t).2.1 ((evmRunWrap f) c t).2.2.1
        ((evmRunWrap f) c t).2.2.2).2.2.2.2 = some e) :=
  ⟨applyCallRestore, callRunStage, createRunStage⟩

/-- A run function that never runs (the transfer fails first). -/
def c1Run : RunFn := fun _ t => (t, [], 0, none)

def c1Txn : Txn :=
  { snap := EmptyState, snaps := [], tree := [], rev := Istanbul }

/-- A CALL frame transferring value 5 from a penniless caller. -/
def c1Contract : Contract :=
  { kind := .call, address := 2, caller := 1, codeAddress := 2,
    depth := 0, value := 5, input := [], gas := 100 }

/-- C1 counterexample: when the value transfer of applyCall fails, the
frame finishes with an error that is not ExecutionReverted, yet the
reported remaining gas is the frame's full gas (100, not 0) and the
overlay still contains the TouchAccount write and the pushed snapshot
(nothing was reverted). -/
theorem c1_counterexample :
    (applyCall c1Run c1Txn c1Contract .call).2.2.2 =
      some Err.notEnoughFunds ∧
    (applyCall c1Run c1Txn c1Contract .call).2.2.1 = 100 ∧
    ((applyCall c1Run c1Txn c1Contract .call).2.2.1 = 0 → False) ∧
    (applyCall c1Run c1Txn c1Contract .call).1.tree ≠ c1Txn.tree := by
  decide

/-- An interpreter that reverts immediately with payload [1] and gas 7. -/
def c1If : InterpFn := fun _ tt => (tt, [1], 7, some .executionReverted)

def c1TxnW : Txn :=
  { snap := EmptyState, snaps := [[]], tree := [(.refundK, .refundV 1)],
    rev := Istanbul }

/-- Witness for C1 (amended), applying the post-run stage clause at a
concrete reverting interpreter. -/
theorem c1_witness :
    (c1TxnW.snaps = c1Txn.snaps ++ c1Txn.tree :: [] ∧
     (∀ (cc : Contract) (tt : Txn),
       ∃ q, ((c1If cc tt).1).snaps = tt.snaps ++ q) ∧
     (c1If c1Contract c1TxnW).2.2.2 = some Err.executionReverted) ∧
    ((applyCallRun (evmRunWrap c1If) c1Txn.snaps.length c1TxnW
        c1Contract).1.tree = c1Txn.tree ∧
     (applyCallRun (evmRunWrap c1If) c1Txn.snaps.length c1TxnW
        c1Contract).2.1 =
       (if Err.executionReverted = Err.executionReverted
        then (c1If c1Contract c1TxnW).2.1 else []) ∧
     (applyCallRun (evmRunWrap c1If) c1Txn.snaps.length c1TxnW
        c1Contract).2.2.1 =
       (if Err.executionReverted = Err.executionReverted
        then ((c1If c1Contract c1TxnW).2.2.1 : Int) else 0) ∧
     (applyCallRun (evmRunWrap c1If) c1Txn.snaps.length c1TxnW
        c1Contract).2.2.2 = some Err.executionReverted) :=
  ⟨⟨rfl, fun cc tt => ⟨[], by simp [c1If]⟩, rfl⟩,
   c1_frame_error_semantics.2.1 c1If c1Txn c1TxnW c1Contract
     Err.executionReverted [] rfl (fun cc tt => ⟨[], by simp [c1If]⟩) rfl⟩

/-! ### C4: the code-deposit charge -/

/-- C4 (amended): when init code returns successfully (run error nil) and
the SpuriousDragon size cap does not fire, the driver charges
200 * len(code) from the remaining gas and stores the code; if the gas is
insufficient, on Homestead or later the frame tree is reverted to the
snapshot and 0 gas is left, while before Homestead the overlay and gas
are kept as the run left them but the creation still fails with the
code-storage error and no code is stored. -/
theorem c4_code_deposit :
    (∀ (kf : List Nat → Nat) (sn addr : Nat) (t : Txn) (ret : List Nat)
       (gasLeft : Int),
      ¬ (SpuriousDragon ≤ t.rev ∧ 24576 < ret.length) →
      ¬ gasLeft < (ret.length : Int) * 200 →
      applyCreateAfterRun kf sn addr t ret gasLeft none =
        (SetCode kf t addr ret, [], gasLeft - (ret.length : Int) * 200,
         addr, none)) ∧
    (∀ (kf : List Nat → Nat) (t0 t : Txn) (addr : Nat) (ret : List Nat)
       (gasLeft : Int) (r : List Tree),
      t.snaps = t0.snaps ++ t0.tree :: r →
      ¬ (SpuriousDragon ≤ t.rev ∧ 24576 < ret.length) →
      gasLeft < (ret.length : Int) * 200 →
      Homestead ≤ t.rev →
      applyCreateAfterRun kf t0.snaps.length addr t ret gasLeft none =
        (revertToSnapshot t t0.snaps.length, [], 0, addr,
         some .codeStorageOutOfGas) ∧
      (applyCreateAfterRun kf t0.snaps.length addr t ret gasLeft
        none).1.tree = t0.tree) ∧
    (∀ (kf : List Nat → Nat) (sn addr : Nat) (t : Txn) (ret : List Nat)
       (gasLeft : Int),
      ¬ (SpuriousDragon ≤ t.rev ∧ 24576 < ret.length) →
      gasLeft < (ret.length : Int) * 200 →
      ¬ Homestead ≤ t.rev →
      applyCreateAfterRun kf sn addr t ret gasLeft none =
        (t, [], gasLeft, addr, some .codeStorageOutOfGas)) := by
  refine ⟨?_, ?_, ?_⟩
  · intro kf sn addr t ret gasLeft hsize hgas
    simp only [applyCreateAfterRun]
    rw [if_neg hsize, if_neg hgas]
  · intro kf t0 t addr ret gasLeft r hts hsize hgas hhome
    have h1 : applyCreateAfterRun kf t0.snaps.length addr t ret gasLeft
        none = (revertToSnapshot t t0.snaps.length, [], 0, addr,
          some .codeStorageOutOfGas) := by
      simp only [applyCreateAfterRun]
      rw [if_neg hsize, if_pos hgas, if_pos hhome]
    refine ⟨h1, ?_⟩
    rw [h1]
    show t.snaps.getD t0.snaps.length t.tree = t0.tree
    rw [hts, getD_append_cons]
  · intro kf sn addr t ret gasLeft hsize hgas hhome
    simp only [applyCreateAfterRun]
    rw [if_neg hsize, if_pos hgas, if_neg hhome]

def c4Ext : CreateFns :=
  { createAddress := fun _ _ => 5, createAddress2 := fun _ _ _ => 6,
    keccak := fun _ => 7 }

/-- Init code that returns 3 bytes of code with 100 gas left. -/
def c4Run : RunFn := fun _ t => (t, [1, 2, 3], 100, none)

def c4Txn : Txn :=
  { snap := EmptyState, snaps := [], tree := [], rev := Frontier }

def c4Contract : Contract :=
  { kind := .create, address := 0, caller := 1, codeAddress := 0,
    depth := 0, value := 0, input := [], gas := 1000 }

/-- C4 counterexample: before Homestead, a creation whose deposit charge
(3 bytes, 600 gas) exceeds the remaining gas (100) does NOT complete: it
returns the code-storage error (with the remaining gas and no revert)
rather than finishing successfully with empty deployed code. -/
theorem c4_counterexample :
    (applyCreate c4Ext c4Run c4Txn c4Contract).2.2.2.2 =
      some Err.codeStorageOutOfGas ∧
    ((applyCreate c4Ext c4Run c4Txn c4Contract).2.2.2.2 = none →
      False) ∧
    (applyCreate c4Ext c4Run c4Txn c4Contract).2.2.1 = 100 := by
  decide

/-- Witness for C4 (amended), applying the success clause: one byte of
returned code and 300 gas left leaves 100 after the 200 deposit charge. -/
theorem c4_witness :
    (¬ (SpuriousDragon ≤ c4Txn.rev ∧ 24576 < [(9 : Nat)].length) ∧
     ¬ (300 : Int) < (([(9 : Nat)].length : Nat) : Int) * 200) ∧
    applyCreateAfterRun c4Ext.keccak 0 5 c4Txn [9] 300 none =
      (SetCode c4Ext.keccak c4Txn 5 [9], [],
       (300 : Int) - (([(9 : Nat)].length : Nat) : Int) * 200, 5, none) :=
  ⟨⟨by decide, by decide⟩,
   c4_code_deposit.1 c4Ext.keccak 0 5 c4Txn [9] 300 (by decide)
     (by decide)⟩

end GoEvm
